import Mathlib

set_option maxHeartbeats 1000000
set_option maxRecDepth 4000

/-!
Verification development for the `lisa` network-interface tool layer
(`src/lisa/tools/ip.py`).  The Python code is shallowly embedded: regular
expressions are embedded as backtracking matchers over `List Char` with the
preference order of Python `re` (leftmost position wins, ordered alternation,
greedy quantifiers), the command-execution transport is an explicit function
from a command line to its result, and fallible operations return
`Except Err`.
-/

namespace Lisa

/-! ### Character classes (ASCII fragment of the Python `re` classes) -/

/-- `\d` -/
def isDigitCh (c : Char) : Bool := decide ('0' ≤ c ∧ c ≤ '9')

/-- `\w` -/
def isWordCh (c : Char) : Bool :=
  isDigitCh c || decide ('a' ≤ c ∧ c ≤ 'z') || decide ('A' ≤ c ∧ c ≤ 'Z') || decide (c = '_')

/-- `\s` -/
def isSpaceCh (c : Char) : Bool :=
  decide (c = ' ' ∨ c = '\t' ∨ c = '\n' ∨ c = '\r' ∨ c = '\x0b' ∨ c = '\x0c')

/-- `.` (which matches every character except a newline) -/
def isDotCh (c : Char) : Bool := decide (c ≠ '\n')

/-- `[0-9a-z:]` — the link-layer token class of `__ip_addr_show_regex` -/
def isMacCh (c : Char) : Bool := isDigitCh c || decide ('a' ≤ c ∧ c ≤ 'z') || decide (c = ':')

/-- `[\d.]` — the IPv4 class of `__ip_addr_show_regex` -/
def isIpCh (c : Char) : Bool := isDigitCh c || decide (c = '.')

/-- `[0-9a-f]` — the octet class of `__mac_address_pattern` -/
def isHexLowCh (c : Char) : Bool := isDigitCh c || decide ('a' ≤ c ∧ c ≤ 'f')

/-- `[0-9a-fA-F]` — the address class of `__dev_regex` -/
def isRouteHexCh (c : Char) : Bool :=
  isDigitCh c || decide ('a' ≤ c ∧ c ≤ 'f') || decide ('A' ≤ c ∧ c ≤ 'F')

/-- `[a-zA-Z0-9]` — the device-name class of `__dev_regex` -/
def isAlnumCh (c : Char) : Bool :=
  isDigitCh c || decide ('a' ≤ c ∧ c ≤ 'z') || decide ('A' ≤ c ∧ c ≤ 'Z')

/-! ### Backtracking matchers

A matcher takes the remaining input and the capture state and returns the
list of all ways to match a prefix of the input, in Python `re` preference
order (the head is the preferred one): ordered alternation appends the right
alternative after the left one, greedy quantifiers list longer consumptions
first.  Sequencing concatenates, per left-alternative, the results of the
continuation, which is exactly the backtracking search order. -/

abbrev MP (σ : Type) := List Char → σ → List (List Char × σ)

/-- Concatenation of a list of lists (kept as a local primitive so all of its
equations are under our control). -/
def concatAll {β : Type} : List (List β) → List β
  | [] => []
  | l :: ls => l ++ concatAll ls

/-- Literal text. -/
def mlit {σ : Type} (t : List Char) : MP σ := fun s c =>
  if t.isPrefixOf s then [(s.drop t.length, c)] else []

/-- Greedy `+` over a one-character class. -/
def mplus {σ : Type} (p : Char → Bool) : MP σ := fun s c =>
  (List.range (s.takeWhile p).length).map
    (fun i => (s.drop ((s.takeWhile p).length - i), c))

/-- Greedy `+` over a one-character class, capturing the consumed text. -/
def mplusCap {σ : Type} (p : Char → Bool) (upd : σ → String → σ) : MP σ := fun s c =>
  (List.range (s.takeWhile p).length).map
    (fun i => (s.drop ((s.takeWhile p).length - i),
               upd c (String.mk (s.take ((s.takeWhile p).length - i)))))

/-- Greedy `*` over a one-character class. -/
def mstar {σ : Type} (p : Char → Bool) : MP σ := fun s c =>
  (List.range ((s.takeWhile p).length + 1)).map
    (fun i => (s.drop ((s.takeWhile p).length + 1 - (i + 1)), c))

/-- Greedy `{1,3}` over a one-character class. -/
def mrepUpTo3 {σ : Type} (p : Char → Bool) : MP σ := fun s c =>
  (List.range (min (s.takeWhile p).length 3)).map
    (fun i => (s.drop (min (s.takeWhile p).length 3 - i), c))

/-- Sequencing. -/
def mseq {σ : Type} (a b : MP σ) : MP σ := fun s c =>
  concatAll ((a s c).map (fun q => b q.1 q.2))

/-- Ordered alternation `x|y`. -/
def malt {σ : Type} (a b : MP σ) : MP σ := fun s c => a s c ++ b s c

/-- Greedy option `(?:x)?`. -/
def mopt {σ : Type} (a : MP σ) : MP σ := fun s c => a s c ++ [(s, c)]

/-! ### The `ip addr show` block pattern (`Ip.__ip_addr_show_regex`)

```
\d+: (?P<name>\w+): \<.+\> .+\n\s+link\/(?:ether|infiniband)
(?P<mac>[0-9a-z:]+) .+\n(?:(?:.+\n\s+|.*)altname \w+)?
(?:\s+inet (?P<ip_addr>[\d.]+)\/.*\n)?
```
-/

/-- Named capture groups of `__ip_addr_show_regex` (a `groupdict`);
`none` is a group that did not participate in the match. -/
structure AddrCaps where
  name : Option String
  mac : Option String
  ip_addr : Option String
deriving DecidableEq

def updName (c : AddrCaps) (v : String) : AddrCaps := { c with name := some v }
def updMac (c : AddrCaps) (v : String) : AddrCaps := { c with mac := some v }
def updIp (c : AddrCaps) (v : String) : AddrCaps := { c with ip_addr := some v }

/-- `(?:(?:.+\n\s+|.*)altname \w+)?` without the outer `?`. -/
def altnameGroup : MP AddrCaps :=
  mseq (malt (mseq (mplus isDotCh) (mseq (mlit ("\n".data)) (mplus isSpaceCh)))
             (mstar isDotCh))
       (mseq (mlit ("altname ".data)) (mplus isWordCh))

/-- `(?:\s+inet (?P<ip_addr>[\d.]+)\/.*\n)?` without the outer `?`. -/
def inetGroup : MP AddrCaps :=
  mseq (mplus isSpaceCh)
    (mseq (mlit ("inet ".data))
      (mseq (mplusCap isIpCh updIp)
        (mseq (mlit ("/".data))
          (mseq (mstar isDotCh) (mlit ("\n".data))))))

/-- `Ip.__ip_addr_show_regex`, piece by piece. -/
def ipAddrShowRegexM : MP AddrCaps :=
  mseq (mplus isDigitCh) <|                 -- \d+
  mseq (mlit (": ".data)) <|                -- ": "
  mseq (mplusCap isWordCh updName) <|       -- (?P<name>\w+)
  mseq (mlit (": <".data)) <|               -- ": \<"
  mseq (mplus isDotCh) <|                   -- .+
  mseq (mlit ("> ".data)) <|                -- "\> "
  mseq (mplus isDotCh) <|                   -- .+
  mseq (mlit ("\n".data)) <|                -- \n
  mseq (mplus isSpaceCh) <|                 -- \s+
  mseq (mlit ("link/".data)) <|             -- "link\/"
  mseq (malt (mlit ("ether".data)) (mlit ("infiniband".data))) <| -- (?:ether|infiniband)
  mseq (mlit (" ".data)) <|                 -- " "
  mseq (mplusCap isMacCh updMac) <|         -- (?P<mac>[0-9a-z:]+)
  mseq (mlit (" ".data)) <|                 -- " "
  mseq (mplus isDotCh) <|                   -- .+
  mseq (mlit ("\n".data)) <|                -- \n
  mseq (mopt altnameGroup)                  -- (?:(?:.+\n\s+|.*)altname \w+)?
  (mopt inetGroup)                          -- (?:\s+inet (?P<ip_addr>[\d.]+)\/.*\n)?

/-! ### The default-route pattern (`Ip.__dev_regex`)

```
default via\s+[0-9a-fA-F]{1,3}\.[0-9a-fA-F]{1,3}\.[0-9a-fA-F]{1,3}\.
[0-9a-fA-F]{1,3}\s+dev\s+([a-zA-Z0-9]+)
```
The capture state is the captured device name. -/
def devRegexM : MP (Option String) :=
  mseq (mlit ("default via".data)) <|
  mseq (mplus isSpaceCh) <|
  mseq (mrepUpTo3 isRouteHexCh) <| mseq (mlit (".".data)) <|
  mseq (mrepUpTo3 isRouteHexCh) <| mseq (mlit (".".data)) <|
  mseq (mrepUpTo3 isRouteHexCh) <| mseq (mlit (".".data)) <|
  mseq (mrepUpTo3 isRouteHexCh) <|
  mseq (mplus isSpaceCh) <| mseq (mlit ("dev".data)) <| mseq (mplus isSpaceCh)
  (mplusCap isAlnumCh (fun _ v => some v))

/-- `pattern.finditer`: scan for successive non-overlapping matches, left to
right; at each position the preferred match is taken and scanning resumes at
its end.  Fuel bounds the recursion (any value above the input length is
enough, every step either consumes the match or advances one character). -/
def reFinditer {σ : Type} (m : MP σ) (init : σ) : Nat → List Char → List σ
  | 0, _ => []
  | fuel + 1, s =>
    if s.isEmpty then []
    else
      match (m s init).head? with
      | some (rem, c) => c :: reFinditer m init fuel rem
      | none =>
        match s with
        | [] => []
        | _ :: t => reFinditer m init fuel t

/-- `pattern.search`: return the leftmost match — the matched text and the
final capture state. -/
def reSearch {σ : Type} (m : MP σ) (init : σ) : Nat → List Char → Option (List Char × σ)
  | 0, _ => none
  | fuel + 1, s =>
    match (m s init).head? with
    | some (rem, c) => some (s.take (s.length - rem.length), c)
    | none =>
      match s with
      | [] => none
      | _ :: t => reSearch m init fuel t

/-! ### The write-side MAC pattern (`Ip.__mac_address_pattern`)

`[0-9a-f]{2}([-:]?)[0-9a-f]{2}(\1[0-9a-f]{2}){4}$` with `re.M`, used through
`.match` (anchored at the start of the string; `$` accepts the end of the
string or a following newline).  The back-reference `\1` repeats whatever the
optional separator group matched; the greedy `[-:]?` consumes a separator
character when one is present and falls back to the empty separator. -/

/-- `[0-9a-f]{2}`: two lowercase hex digits, returning the rest. -/
def hexPair : List Char → Option (List Char)
  | a :: b :: r => if isHexLowCh a && isHexLowCh b then some r else none
  | _ => none

/-- `$` under `re.M`: end of input or a following newline. -/
def macLineEnd : List Char → Bool
  | [] => true
  | c :: _ => decide (c = '\n')

/-- `(\1[0-9a-f]{2}){n}$`, for a fixed separator `sep`. -/
def macPairs (sep : List Char) : Nat → List Char → Bool
  | 0, r => macLineEnd r
  | n + 1, r =>
    if sep.isPrefixOf r then
      match hexPair (r.drop sep.length) with
      | some r2 => macPairs sep n r2
      | none => false
    else false

/-- `[0-9a-f]{2}(\1[0-9a-f]{2}){4}$` for a fixed separator. -/
def macTryRest (sep : List Char) (r : List Char) : Bool :=
  match hexPair r with
  | some r2 => macPairs sep 4 r2
  | none => false

/-- `Ip.__mac_address_pattern.match(s)` as a Boolean. -/
def macMatch (s : String) : Bool :=
  match hexPair s.data with
  | none => false
  | some r =>
    match r with
    | [] => macTryRest [] r
    | c :: r2 =>
      if c = '-' ∨ c = ':' then macTryRest [c] r2 || macTryRest [] r
      else macTryRest [] r

/-! ### External boundaries -/

/-- Result of one command execution at the Command Runner boundary
(`node.execute` / `Tool.run`): whether the exit code matched the required
one, plus captured stdout and stderr. -/
structure RunResult where
  exitOk : Bool
  stdout : String
  stderr : String
deriving DecidableEq

/-- The Command Runner boundary: a command line to its result. -/
abbrev Runner := String → RunResult

/-- Error taxonomy of the tool layer. -/
inductive Err where
  | lisa (msg : String)        -- LisaException
  | cmdFail (msg : String)     -- expected_exit_code mismatch
  | assertFail (msg : String)  -- assertpy assertion failure
  | valueError                 -- int() failure
  | notImpl                    -- NotImplementedError
deriving DecidableEq

/-- Commands issued to the node plus commands registered with the
`StartConfiguration` boot-persistence collaborator. -/
structure Trace where
  cmds : List String
  boot : List String
deriving DecidableEq

def Trace.append (a b : Trace) : Trace := ⟨a.cmds ++ b.cmds, a.boot ++ b.boot⟩

/-! ### The `IpInfo` record and the tool operations -/

/-- `IpInfo`; `ip_addr` is `none` when the optional `inet` group did not
participate in the match (Python `None`). -/
structure IpInfo where
  nic_name : String
  mac_addr : String
  ip_addr : Option String
deriving DecidableEq

/-- Modelled from the spec: `find_groups_in_lines` (defined in `lisa.util`,
which is not under `src/`) with `single_line=False` collects, in listing
order, the named capture groups of each successive non-overlapping match of
the pattern in the whole text. -/
def find_groups_in_lines {σ : Type} (m : MP σ) (init : σ) (s : String) : List σ :=
  reFinditer m init (s.data.length + 1) s.data

/-- The parsing pipeline of `Ip.get_info`: run `__ip_addr_show_regex` over
the whole output and build one `IpInfo` per entry. -/
def ipGetInfoParse (stdout : String) : List IpInfo :=
  (find_groups_in_lines ipAddrShowRegexM ⟨none, none, none⟩ stdout).map
    (fun e => ⟨e.name.getD "", e.mac.getD "", e.ip_addr⟩)

/-- `Ip.get_info`: run `ip addr show`, require exit code 0, parse. -/
def get_info (runner : Runner) (nic_name : Option String) : Except Err (List IpInfo) :=
  let command := "ip addr show" ++ (match nic_name with | some n => " " ++ n | none => "")
  let r := runner command
  if r.exitOk then Except.ok (ipGetInfoParse r.stdout)
  else Except.error (Err.cmdFail ("Could not run " ++ command))

/-- `Ip._set_device_status`: run the link-set command with required exit
code 0; only when it succeeded and `persist` is set, register the same
command with the boot-persistence collaborator. -/
def set_device_status (runner : Runner) (nic_name status : String) (persist : Bool) :
    Trace × Except Err Unit :=
  let cmd := "ip link set " ++ nic_name ++ " " ++ status
  if (runner cmd).exitOk then
    (⟨[cmd], if persist then [cmd] else []⟩, Except.ok ())
  else
    (⟨[cmd], []⟩, Except.error (Err.cmdFail ("Could not set " ++ nic_name ++ " to '" ++ status ++ "'")))

/-- `Ip.up`. -/
def ipUp (runner : Runner) (nic_name : String) (persist : Bool) : Trace × Except Err Unit :=
  set_device_status runner nic_name "up" persist

/-- `Ip.down`. -/
def ipDown (runner : Runner) (nic_name : String) (persist : Bool) : Trace × Except Err Unit :=
  set_device_status runner nic_name "down" persist

/-- `Ip.add_ipv4_address`: run `ip addr add {ip} dev {nic}` with required
exit code 0; only on success and with `persist` set, register the replay
command. -/
def add_ipv4_address (runner : Runner) (nic_name ip : String) (persist : Bool) :
    Trace × Except Err Unit :=
  let cmd := "ip addr add " ++ ip ++ " dev " ++ nic_name
  if (runner cmd).exitOk then
    (⟨[cmd], if persist then [cmd] else []⟩, Except.ok ())
  else
    (⟨[cmd], []⟩, Except.error (Err.cmdFail ("Could not add address to device " ++ nic_name)))

/-- `Ip.set_mac_address`: validate, then `down`; the set-address command is
wrapped in `try`/`finally` with `up` in the `finally` block, so `up` runs
whether or not set-address failed, and an exception raised by `up` replaces
the pending one (Python `finally` semantics). -/
def set_mac_address (runner : Runner) (nic_name mac_address : String) :
    Trace × Except Err Unit :=
  if macMatch mac_address = false then
    (⟨[], []⟩, Except.error (Err.lisa ("MAC address " ++ mac_address ++ " is invalid")))
  else
    let d := ipDown runner nic_name false
    match d.2 with
    | Except.error e => (d.1, Except.error e)
    | Except.ok _ =>
      let setCmd := "/sbin/ip link set " ++ nic_name ++ " address " ++ mac_address
      let r2 : Except Err Unit :=
        if (runner setCmd).exitOk then Except.ok ()
        else Except.error (Err.cmdFail
          ("fail to set mac address " ++ mac_address ++ " for nic " ++ nic_name))
      let u := ipUp runner nic_name false
      (Trace.append d.1 (Trace.append ⟨[setCmd], []⟩ u.1),
       match u.2 with
       | Except.error e => Except.error e
       | Except.ok _ => r2)

/-- Python `int(str)`: optional surrounding whitespace, optional sign,
nonempty digits. -/
def parsePyInt (s : String) : Option Int :=
  let t := s.data.dropWhile isSpaceCh
  let (neg, t2) := match t with
    | '-' :: u => (true, u)
    | '+' :: u => (false, u)
    | u => (false, u)
  let ds := t2.takeWhile isDigitCh
  let rest := (t2.dropWhile isDigitCh).dropWhile isSpaceCh
  if ds = [] ∨ rest ≠ [] then none
  else
    let v : Int := Int.ofNat (ds.foldl (fun acc c => acc * 10 + (c.toNat - '0'.toNat)) 0)
    some (if neg then -v else v)

/-- `Ip.get_mtu`: read `/sys/class/net/{nic}/mtu` through the file-read
boundary and parse it with `int`. -/
def get_mtu (readFile : String → String) (nic_name : String) : Option Int :=
  parsePyInt (readFile ("/sys/class/net/" ++ nic_name ++ "/mtu"))

/-- `Ip.set_mtu`: run the mtu-set command (no required exit code, so a
failing command does not raise), re-read the MTU and assert equality
("set mtu failed"). -/
def set_mtu (runner : Runner) (readFile : String → String) (nic_name : String) (mtu : Int) :
    Trace × Except Err Unit :=
  let cmd := "ip link set dev " ++ nic_name ++ " mtu " ++ toString mtu
  let _ := runner cmd
  (⟨[cmd], []⟩,
   match get_mtu readFile nic_name with
   | none => Except.error Err.valueError
   | some new_mtu =>
     if new_mtu = mtu then Except.ok ()
     else Except.error (Err.assertFail "set mtu failed"))

/-- Substring containment (Python `in` on strings). -/
def hasInfix (t : List Char) : List Char → Bool
  | [] => t.isPrefixOf []
  | a :: s => t.isPrefixOf (a :: s) || hasInfix t s

/-- `Ip.nic_exists`: run `ip link show {nic}` (no required exit code) and
treat a "not exist" substring in a nonempty stderr or stdout as the negative
signal. -/
def nic_exists (runner : Runner) (nic_name : String) : Bool :=
  let r := runner ("ip link show " ++ nic_name)
  !((decide (r.stderr ≠ "") && hasInfix ("not exist".data) r.stderr.data) ||
    (decide (r.stdout ≠ "") && hasInfix ("not exist".data) r.stdout.data))

/-- `Ip.setup_bridge`: no-op (beyond the existence probe) when the bridge
already exists; otherwise create it, assign the address (persisted by
default) and bring it up. -/
def setup_bridge (runner : Runner) (name ip : String) : Trace × Except Err Unit :=
  let probe := "ip link show " ++ name
  if nic_exists runner name then (⟨[probe], []⟩, Except.ok ())
  else
    let create := "ip link add " ++ name ++ " type bridge"
    if (runner create).exitOk = false then
      (⟨[probe, create], []⟩, Except.error (Err.cmdFail ("Could not create bridge " ++ name)))
    else
      let a := add_ipv4_address runner name ip true
      match a.2 with
      | Except.error e => (⟨probe :: create :: a.1.cmds, a.1.boot⟩, Except.error e)
      | Except.ok _ =>
        let u := ipUp runner name false
        (⟨probe :: create :: (a.1.cmds ++ u.1.cmds), a.1.boot ++ u.1.boot⟩, u.2)

/-- `Ip.get_default_route_info`: run `ip route`, assert the exit code, assert
non-empty stdout, search with `__dev_regex`; raise the "Could not locate
default network interface" `LisaException` when the pattern does not match. -/
def get_default_route_info (r : RunResult) : Except Err (String × String) :=
  if r.exitOk = false then Except.error (Err.cmdFail "ip route failed")
  else if r.stdout = "" then Except.error (Err.assertFail "Expected stdout to be non-empty")
  else
    match reSearch devRegexM none (r.stdout.data.length + 1) r.stdout.data with
    | none => Except.error (Err.lisa
        ("Could not locate default network interface in output:\n" ++ r.stdout))
    | some (whole, caps) =>
      match caps with
      | some dev => Except.ok (dev, String.mk whole)
      | none => Except.error (Err.assertFail "expected one capture group")

/-- Python `str.split()` with no arguments: maximal whitespace runs separate
the tokens, no empty tokens are produced. -/
def pySplitGo : List Char → List Char → List String
  | [], acc => if acc = [] then [] else [String.mk acc.reverse]
  | c :: r, acc =>
    if isSpaceCh c then
      if acc = [] then pySplitGo r [] else String.mk acc.reverse :: pySplitGo r []
    else pySplitGo r (c :: acc)

def pySplit (s : String) : List String := pySplitGo s.data []

/-- `Ip.get_interface_list`: the default (`ip`) variant raises
`NotImplementedError` before issuing any command. -/
def Ip.get_interface_list (_runner : Runner) : Trace × Except Err (List String) :=
  (⟨[], []⟩, Except.error Err.notImpl)

/-- `IpFreebsd.get_interface_list`: run `ifconfig -l` with required exit
code 0 and split the output on whitespace. -/
def IpFreebsd.get_interface_list (runner : Runner) : Trace × Except Err (List String) :=
  let r := runner "ifconfig -l"
  if r.exitOk then (⟨["ifconfig -l"], []⟩, Except.ok (pySplit r.stdout))
  else (⟨["ifconfig -l"], []⟩, Except.error (Err.cmdFail "Failed to get interface list"))

/-! ### Valid `ip addr show` outputs

A valid output is a sequence of interface blocks; each block is a header
line `<idx>: <name>: <FLAGS> <rest>`, a link-layer line
`    link/(ether|infiniband) <mac> <rest>` and an optional
`    inet <ip>/<rest>` line.  `Block.Wf` states the lexical side conditions
under which the block is a well-formed block of real `ip addr show` output
(names are `\w+`, the index is numeric, free-text parts stay on their line,
contain no `>` in the header and never contain the token `altname` — real
flag sets, `mtu ...` trailers and `brd ...` trailers satisfy all of them). -/

structure Block where
  idx : String
  name : String
  flags : String
  headerRest : String
  infiniband : Bool
  mac : String
  linkRest : String
  inet : Option (String × String)
deriving DecidableEq

/-- The header line of a rendered block (without its newline). -/
def Block.headerLine (b : Block) : List Char :=
  b.idx.data ++ ": ".data ++ b.name.data ++ ": <".data ++ b.flags.data ++ "> ".data
    ++ b.headerRest.data

/-- The body of the optional `inet` line (without its newline). -/
def Block.inetBody (b : Block) : List Char :=
  match b.inet with
  | none => []
  | some (ip, r) => "    inet ".data ++ ip.data ++ "/".data ++ r.data

/-- The rendered text of one interface block. -/
def renderBlock (b : Block) : List Char :=
  b.headerLine ++ "\n".data
    ++ "    ".data ++ "link/".data
    ++ (if b.infiniband then "infiniband".data else "ether".data)
    ++ " ".data ++ b.mac.data ++ " ".data ++ b.linkRest.data ++ "\n".data
    ++ (match b.inet with
        | none => []
        | some _ => b.inetBody ++ "\n".data)

/-- The rendered text of a whole output. -/
def renderBlocks : List Block → List Char
  | [] => []
  | b :: bs => renderBlock b ++ renderBlocks bs

/-- Well-formedness of one block (see the section comment). -/
def Block.Wf (b : Block) : Prop :=
  b.idx ≠ "" ∧ (∀ c ∈ b.idx.data, isDigitCh c = true) ∧
  b.name ≠ "" ∧ (∀ c ∈ b.name.data, isWordCh c = true) ∧
  b.flags ≠ "" ∧ (∀ c ∈ b.flags.data, c ≠ '\n' ∧ c ≠ '>') ∧
  b.headerRest ≠ "" ∧ (∀ c ∈ b.headerRest.data, c ≠ '\n' ∧ c ≠ '>') ∧
  b.mac ≠ "" ∧ (∀ c ∈ b.mac.data, isMacCh c = true) ∧
  b.linkRest ≠ "" ∧ (∀ c ∈ b.linkRest.data, c ≠ '\n') ∧
  (∀ pr ∈ b.inet, pr.1 ≠ "" ∧ (∀ c ∈ pr.1.data, isIpCh c = true) ∧
    (∀ c ∈ pr.2.data, c ≠ '\n')) ∧
  hasInfix ("altname".data) b.headerLine = false ∧
  hasInfix ("altname".data) b.inetBody = false

instance (b : Block) : Decidable b.Wf := by
  unfold Block.Wf
  infer_instance

/-- The capture state that the block pattern produces on a well-formed
block. -/
def capsOf (b : Block) : AddrCaps :=
  ⟨some b.name, some b.mac, (b.inet.map Prod.fst)⟩

/-- The `IpInfo` record a well-formed block parses to. -/
def Block.info (b : Block) : IpInfo :=
  ⟨b.name, b.mac, b.inet.map Prod.fst⟩

/-! ### Spec-side MAC predicates (for the write-side validity claim)

`macSpecClaim` is the claim's wording: six groups of two hex digits joined
uniformly by `:` or uniformly by `-`, anchored at line end.  `macSpecAmended`
is the amended wording: six groups of two lowercase hex digits joined
uniformly by `:`, uniformly by `-`, or directly concatenated with no
separator, anchored at line end. -/

def IsHexPairAny (l : List Char) : Prop :=
  ∃ a b, l = [a, b] ∧ isRouteHexCh a = true ∧ isRouteHexCh b = true

def IsHexPairLower (l : List Char) : Prop :=
  ∃ a b, l = [a, b] ∧ isHexLowCh a = true ∧ isHexLowCh b = true

/-- Anchoring at line end (`$` under `re.M`): end of the string, or a
newline immediately after. -/
def LineEndT (t : List Char) : Prop := t = [] ∨ ∃ u, t = '\n' :: u

/-- Six groups accepted by `pair`, joined uniformly by one of the listed
separators, then a line end. -/
def SixGroups (pair : List Char → Prop) (seps : List (List Char)) (s : List Char) : Prop :=
  ∃ p1 p2 p3 p4 p5 p6 sep t,
    pair p1 ∧ pair p2 ∧ pair p3 ∧ pair p4 ∧ pair p5 ∧ pair p6 ∧
    sep ∈ seps ∧ LineEndT t ∧
    s = p1 ++ sep ++ p2 ++ sep ++ p3 ++ sep ++ p4 ++ sep ++ p5 ++ sep ++ p6 ++ t

/-- The claim's characterization of the write-side MAC check. -/
def macSpecClaim (s : String) : Prop :=
  SixGroups IsHexPairAny [[':'], ['-']] s.data

/-- The amended characterization of the write-side MAC check. -/
def macSpecAmended (s : String) : Prop :=
  SixGroups IsHexPairLower [[], [':'], ['-']] s.data

instance {α : Type} [DecidableEq α] : DecidableEq (Except Err α) := fun a b =>
  match a, b with
  | Except.ok x, Except.ok y =>
    match decEq x y with
    | isTrue h => isTrue (by rw [h])
    | isFalse h => isFalse (fun hc => h (by injection hc))
  | Except.error e, Except.error f =>
    match decEq e f with
    | isTrue h => isTrue (by rw [h])
    | isFalse h => isFalse (fun hc => h (by injection hc))
  | Except.ok _, Except.error _ => isFalse (fun hc => Except.noConfusion hc)
  | Except.error _, Except.ok _ => isFalse (fun hc => Except.noConfusion hc)

/-- A concrete block with an IPv4 address, for evaluation. -/
def blkEth1 : Block :=
  ⟨"3", "eth1", "BROADCAST,MULTICAST,UP,LOWER_UP", "mtu 1500 qdisc mq state UP", false,
   "00:22:48:79:69:b4", "brd ff:ff:ff:ff:ff:ff",
   some ("10.0.1.4", "24 brd 10.0.1.255 scope global eth1")⟩

/-- A concrete block without an IPv4 address, for evaluation. -/
def blkEnP1 : Block :=
  ⟨"4", "enP1", "BROADCAST,MULTICAST,SLAVE,UP,LOWER_UP", "mtu 1500 qdisc mq state UP", true,
   "00:00:09:27:fe:80", "brd ff:ff", none⟩

/-- Shape of the text that follows a block in a valid output: either nothing,
or another rendered block — which starts with a header line `hd` (beginning
with a digit of its index, staying on one line, free of `altname`) followed
by the indented `link/` line of that block. -/
def RestShape (r : List Char) : Prop :=
  r = [] ∨ ∃ hd tail, r = hd ++ '\n' :: ' ' :: ' ' :: ' ' :: ' ' :: 'l' :: tail ∧
    hd ≠ [] ∧ (∃ d, hd.head? = some d ∧ isDigitCh d = true) ∧
    (∀ a ∈ hd, a ≠ '\n') ∧ hasInfix ("altname".data) hd = false

/-! ## Helper lemmas about lists -/

theorem concatAll_append {β : Type} (l1 l2 : List (List β)) :
    concatAll (l1 ++ l2) = concatAll l1 ++ concatAll l2 := by
  induction l1 with
  | nil => rfl
  | cons a l1 ih => simp [concatAll, ih]

theorem concatAll_eq_nil {β : Type} (l : List (List β)) (h : ∀ x ∈ l, x = []) :
    concatAll l = [] := by
  induction l with
  | nil => rfl
  | cons a l ih =>
    simp only [concatAll]
    rw [h a (by simp), ih (fun x hx => h x (by simp [hx]))]
    rfl

theorem concat_map_range_single {β : Type} (n i0 : Nat) (g : Nat → List β)
    (hi : i0 < n) (hz : ∀ i, i < n → i ≠ i0 → g i = []) :
    concatAll ((List.range n).map g) = g i0 := by
  induction n with
  | zero => omega
  | succ n ih =>
    rw [List.range_succ, List.map_append, concatAll_append]
    by_cases hc : i0 = n
    · subst hc
      rw [concatAll_eq_nil]
      · simp [concatAll]
      · intro x hx
        simp only [List.mem_map, List.mem_range] at hx
        obtain ⟨i, hin, hgi⟩ := hx
        rw [← hgi]; exact hz i (by omega) (by omega)
    · rw [ih (by omega) (fun i h1 h2 => hz i (by omega) h2)]
      have hn : g n = [] := hz n (by omega) (fun h => hc h.symm)
      simp [concatAll, hn]

theorem concat_map_range_nil {β : Type} (n : Nat) (g : Nat → List β)
    (hz : ∀ i, i < n → g i = []) :
    concatAll ((List.range n).map g) = [] := by
  apply concatAll_eq_nil
  intro x hx
  simp only [List.mem_map, List.mem_range] at hx
  obtain ⟨i, hin, hgi⟩ := hx
  rw [← hgi]; exact hz i hin

theorem takeWhile_app (p : Char → Bool) (x s : List Char)
    (hx : ∀ a ∈ x, p a = true) (hs : ∀ b, s.head? = some b → p b = false) :
    (x ++ s).takeWhile p = x := by
  induction x with
  | nil =>
    cases s with
    | nil => rfl
    | cons b t => simp [List.takeWhile_cons, hs b rfl]
  | cons a x ih =>
    simp only [List.cons_append, List.takeWhile_cons, hx a (by simp)]
    rw [ih (fun a' h => hx a' (by simp [h]))]
    simp

theorem head_drop_mem {β : Type} (u v : List β) (j : Nat) (h : j < u.length) :
    ∃ a, ((u ++ v).drop j).head? = some a ∧ a ∈ u := by
  induction u generalizing j with
  | nil => simp at h
  | cons a u ih =>
    cases j with
    | zero => exact ⟨a, by simp, by simp⟩
    | succ j =>
      obtain ⟨a', h1, h2⟩ := ih j (by simpa using h)
      exact ⟨a', by simpa using h1, by simp [h2]⟩

theorem isPrefixOf_self_app (t s : List Char) : t.isPrefixOf (t ++ s) = true := by
  induction t with
  | nil => simp
  | cons a t ih => simp [List.isPrefixOf_cons₂, ih]

theorem drop_app_le {β : Type} (u v : List β) (j : Nat) (h : j ≤ u.length) :
    (u ++ v).drop j = u.drop j ++ v := by
  induction u generalizing j with
  | nil =>
    have : j = 0 := by simp at h; omega
    simp [this]
  | cons a u ih =>
    cases j with
    | zero => simp
    | succ j => simpa using ih j (by simpa using h)

theorem pref_of_pref_app (t u v : List Char) (h : t.isPrefixOf (u ++ v) = true)
    (hl : t.length ≤ u.length) : t.isPrefixOf u = true := by
  induction t generalizing u with
  | nil => simp
  | cons a t ih =>
    cases u with
    | nil => simp at hl
    | cons b u =>
      simp only [List.cons_append, List.isPrefixOf_cons₂, Bool.and_eq_true] at h ⊢
      exact ⟨h.1, ih u h.2 (by simpa using hl)⟩

theorem pref_app_head (t1 t2 s : List Char) (h : (t1 ++ t2).isPrefixOf s = true) :
    t1.isPrefixOf s = true := by
  induction t1 generalizing s with
  | nil => simp
  | cons a t1 ih =>
    cases s with
    | nil => simp at h
    | cons b s =>
      simp only [List.cons_append, List.isPrefixOf_cons₂, Bool.and_eq_true] at h ⊢
      exact ⟨h.1, ih s h.2⟩

theorem mem_of_getElem' {β : Type} (l : List β) (i : Nat) (a : β) (h : l[i]? = some a) :
    a ∈ l := by
  induction l generalizing i with
  | nil => simp at h
  | cons x l ih =>
    cases i with
    | zero => simp at h; simp [h]
    | succ i => simp only [List.getElem?_cons_succ] at h; simp [ih i h]

theorem isPrefixOf_getElem (t s : List Char) (h : t.isPrefixOf s = true) (i : Nat)
    (hi : i < t.length) : s[i]? = t[i]? := by
  induction t generalizing s i with
  | nil => simp at hi
  | cons a t ih =>
    cases s with
    | nil => simp at h
    | cons b s =>
      simp only [List.isPrefixOf_cons₂, Bool.and_eq_true, beq_iff_eq] at h
      cases i with
      | zero => simp [h.1]
      | succ i => simpa using ih s h.2 i (by simpa using hi)

theorem hasInfix_false_drop (t L : List Char) (h : hasInfix t L = false) (j : Nat) :
    t.isPrefixOf (L.drop j) = false := by
  induction L generalizing j with
  | nil => simpa [hasInfix] using h
  | cons a s ih =>
    simp only [hasInfix, Bool.or_eq_false_iff] at h
    cases j with
    | zero => simpa using h.1
    | succ j => simpa using ih h.2 j

/-- A token `t` of non-newline characters that does not occur inside `L`
cannot occur at any position of `L ++ '\n' :: r` that starts inside `L`. -/
theorem no_occurrence (t L r : List Char) (j : Nat)
    (ht : ∀ c ∈ t, c ≠ '\n') (hL : hasInfix t L = false) (hj : j ≤ L.length) :
    t.isPrefixOf ((L ++ '\n' :: r).drop j) = false := by
  cases hpre : t.isPrefixOf ((L ++ '\n' :: r).drop j) with
  | false => rfl
  | true =>
    exfalso
    rw [drop_app_le L ('\n' :: r) j hj] at hpre
    by_cases hlen : t.length ≤ L.length - j
    · have h1 : t.isPrefixOf (L.drop j) = true :=
        pref_of_pref_app t (L.drop j) ('\n' :: r) hpre (by simp; omega)
      rw [hasInfix_false_drop t L hL j] at h1
      exact Bool.noConfusion h1
    · have hi : L.length - j < t.length := by omega
      have h2 : (L.drop j ++ '\n' :: r)[L.length - j]? = t[L.length - j]? :=
        isPrefixOf_getElem t _ hpre (L.length - j) hi
      rw [List.getElem?_append_right (by simp)] at h2
      simp only [List.length_drop] at h2
      rw [Nat.sub_self] at h2
      simp only [List.getElem?_cons_zero] at h2
      have h3 : '\n' ∈ t := mem_of_getElem' t (L.length - j) '\n' h2.symm
      exact ht '\n' h3 rfl

/-- Two characters separated by a class are distinct. -/
theorem class_ne {p : Char → Bool} {a b : Char} (ha : p a = true) (hb : p b = false) :
    a ≠ b := by
  intro h
  subst h
  exact Bool.noConfusion (ha.symm.trans hb)

/-! ## Lemmas about the matcher combinators -/

theorem mlit_pref {σ : Type} (t s : List Char) (c : σ) : mlit t (t ++ s) c = [(s, c)] := by
  unfold mlit
  rw [isPrefixOf_self_app]
  simp [List.drop_left]

theorem mlit_not_head {σ : Type} (b : Char) (t s : List Char) (c : σ)
    (h : s.head? ≠ some b) : mlit (b :: t) s c = [] := by
  unfold mlit
  cases s with
  | nil => simp
  | cons a s' =>
    have hab : (b == a) = false := by
      simp only [List.head?_cons, ne_eq, Option.some.injEq] at h
      simp [beq_eq_false_iff_ne]
      exact fun hEq => h hEq.symm
    simp [List.isPrefixOf_cons₂, hab]

theorem mlit_not_pref {σ : Type} (lit s : List Char) (c : σ)
    (h : lit.isPrefixOf s = false) : mlit lit s c = [] := by
  unfold mlit
  simp [h]

theorem mseq_single {σ : Type} (a K : MP σ) (s : List Char) (c : σ) (s2 : List Char) (c2 : σ)
    (h : a s c = [(s2, c2)]) : mseq a K s c = K s2 c2 := by
  unfold mseq
  rw [h]
  simp [concatAll]

theorem mseq_nil {σ : Type} (a K : MP σ) (s : List Char) (c : σ)
    (h : a s c = []) : mseq a K s c = [] := by
  unfold mseq
  rw [h]
  rfl

theorem mseq_mlit_nil {σ : Type} (b : Char) (t : List Char) (K : MP σ) (s : List Char) (c : σ)
    (h : s.head? ≠ some b) : mseq (mlit (b :: t)) K s c = [] :=
  mseq_nil _ _ _ _ (mlit_not_head b t s c h)

theorem mseq_assoc {σ : Type} (a b k : MP σ) (s : List Char) (c : σ) :
    mseq (mseq a b) k s c = mseq a (mseq b k) s c := by
  unfold mseq
  generalize a s c = L
  induction L with
  | nil => rfl
  | cons q L ih =>
    simp only [List.map_cons, concatAll, List.map_append, concatAll_append]
    rw [ih]

theorem mseq_malt {σ : Type} (a b K : MP σ) (s : List Char) (c : σ) :
    mseq (malt a b) K s c = mseq a K s c ++ mseq b K s c := by
  unfold mseq malt
  rw [List.map_append, concatAll_append]

theorem mseq_mopt {σ : Type} (a K : MP σ) (s : List Char) (c : σ) :
    mseq (mopt a) K s c = mseq a K s c ++ K s c := by
  unfold mseq mopt
  rw [List.map_append, concatAll_append]
  simp [concatAll]

theorem mplus_empty {σ : Type} (p : Char → Bool) (s : List Char) (c : σ)
    (h : s.takeWhile p = []) : mplus p s c = [] := by
  unfold mplus
  simp [h]

theorem mseq_mplus_choose {σ : Type} (p : Char → Bool) (K : MP σ) (x s : List Char) (c : σ)
    (j0 : Nat) (htw : (x ++ s).takeWhile p = x) (h1 : 1 ≤ j0) (h2 : j0 ≤ x.length)
    (hfail : ∀ j, 1 ≤ j → j ≤ x.length → j ≠ j0 → K ((x ++ s).drop j) c = []) :
    mseq (mplus p) K (x ++ s) c = K ((x ++ s).drop j0) c := by
  unfold mseq mplus
  rw [htw, List.map_map]
  have hres := concat_map_range_single x.length (x.length - j0)
      ((fun q => K q.1 q.2) ∘ fun i => (List.drop (x.length - i) (x ++ s), c))
      (by omega)
      (fun i hi hne => hfail (x.length - i) (by omega) (by omega) (by omega))
  rw [hres]
  show K (List.drop (x.length - (x.length - j0)) (x ++ s)) c = _
  have hj : x.length - (x.length - j0) = j0 := by omega
  rw [hj]

theorem mseq_mplusCap_run {σ : Type} (p : Char → Bool) (upd : σ → String → σ) (K : MP σ)
    (x s : List Char) (c : σ) (htw : (x ++ s).takeWhile p = x) (hx : x ≠ [])
    (hfail : ∀ j (c2 : σ), 1 ≤ j → j < x.length → K ((x ++ s).drop j) c2 = []) :
    mseq (mplusCap p upd) K (x ++ s) c = K s (upd c (String.mk x)) := by
  unfold mseq mplusCap
  rw [htw, List.map_map]
  have hlen : 0 < x.length := List.length_pos.mpr hx
  have hres := concat_map_range_single x.length 0
      ((fun q => K q.1 q.2) ∘ fun i =>
        (List.drop (x.length - i) (x ++ s), upd c (String.mk (List.take (x.length - i) (x ++ s)))))
      (by omega)
      (fun i hi hne => hfail (x.length - i) _ (by omega) (by omega))
  rw [hres]
  show K (List.drop (x.length - 0) (x ++ s)) (upd c (String.mk (List.take (x.length - 0) (x ++ s)))) = _
  rw [Nat.sub_zero, List.drop_left, List.take_left]

theorem mseq_mplus_fail {σ : Type} (p : Char → Bool) (K : MP σ) (s : List Char) (c : σ)
    (hfail : ∀ j, 1 ≤ j → j ≤ (s.takeWhile p).length → K (s.drop j) c = []) :
    mseq (mplus p) K s c = [] := by
  unfold mseq mplus
  rw [List.map_map]
  exact concat_map_range_nil _ _
    (fun i hi => by
      show K (List.drop ((s.takeWhile p).length - i) s) c = []
      exact hfail _ (by omega) (by omega))

theorem mseq_mstar_fail {σ : Type} (p : Char → Bool) (K : MP σ) (s : List Char) (c : σ)
    (hfail : ∀ j, j ≤ (s.takeWhile p).length → K (s.drop j) c = []) :
    mseq (mstar p) K s c = [] := by
  unfold mseq mstar
  rw [List.map_map]
  exact concat_map_range_nil _ _
    (fun i hi => by
      have harith : (s.takeWhile p).length + 1 - (i + 1) = (s.takeWhile p).length - i := by
        omega
      show K (List.drop ((s.takeWhile p).length + 1 - (i + 1)) s) c = []
      rw [harith]
      exact hfail _ (by omega))

/-- A greedy class run followed by a literal that starts outside the class:
the matcher consumes exactly the run and the literal. -/
theorem plusLitStep {σ : Type} (p : Char → Bool) (x : List Char) (b : Char) (t s2 input : List Char)
    (K : MP σ) (c : σ) (hx : x ≠ []) (hall : ∀ a ∈ x, p a = true) (hb : p b = false)
    (hinput : input = x ++ (b :: (t ++ s2))) :
    mseq (mplus p) (mseq (mlit (b :: t)) K) input c = K s2 c := by
  subst hinput
  have htw : (x ++ (b :: (t ++ s2))).takeWhile p = x :=
    takeWhile_app p x (b :: (t ++ s2)) hall (fun b2 h => by
      simp only [List.head?_cons, Option.some.injEq] at h
      rw [← h]; exact hb)
  have hlen : 0 < x.length := List.length_pos.mpr hx
  rw [mseq_mplus_choose p _ x (b :: (t ++ s2)) c x.length htw (by omega) (le_refl _)
        (fun j hj1 hj2 hjne => by
          obtain ⟨a, ha1, ha2⟩ := head_drop_mem x (b :: (t ++ s2)) j (by omega)
          exact mseq_mlit_nil b t K _ c (by
            rw [ha1]
            intro hEq
            exact class_ne (hall a ha2) hb (Option.some.inj hEq)))]
  rw [List.drop_left]
  exact mseq_single _ _ _ _ _ _ (mlit_pref (b :: t) s2 c)

/-- The capturing variant of `plusLitStep`. -/
theorem plusCapLitStep {σ : Type} (p : Char → Bool) (upd : σ → String → σ) (x : List Char)
    (b : Char) (t s2 input : List Char) (K : MP σ) (c : σ)
    (hx : x ≠ []) (hall : ∀ a ∈ x, p a = true) (hb : p b = false)
    (hinput : input = x ++ (b :: (t ++ s2))) :
    mseq (mplusCap p upd) (mseq (mlit (b :: t)) K) input c
      = K s2 (upd c (String.mk x)) := by
  subst hinput
  have htw : (x ++ (b :: (t ++ s2))).takeWhile p = x :=
    takeWhile_app p x (b :: (t ++ s2)) hall (fun b2 h => by
      simp only [List.head?_cons, Option.some.injEq] at h
      rw [← h]; exact hb)
  rw [mseq_mplusCap_run p upd _ x (b :: (t ++ s2)) c htw hx
        (fun j c2 hj1 hj2 => by
          obtain ⟨a, ha1, ha2⟩ := head_drop_mem x (b :: (t ++ s2)) j (by omega)
          exact mseq_mlit_nil b t K _ c2 (by
            rw [ha1]
            intro hEq
            exact class_ne (hall a ha2) hb (Option.some.inj hEq)))]
  exact mseq_single _ _ _ _ _ _ (mlit_pref (b :: t) s2 _)

/-- A greedy `*` run followed by a final literal that starts outside the
class. -/
theorem starLitEnd {σ : Type} (p : Char → Bool) (x : List Char) (b : Char) (t s2 input : List Char)
    (c : σ) (hall : ∀ a ∈ x, p a = true) (hb : p b = false)
    (hinput : input = x ++ (b :: (t ++ s2))) :
    mseq (mstar p) (mlit (b :: t)) input c = [(s2, c)] := by
  subst hinput
  have htw : (x ++ (b :: (t ++ s2))).takeWhile p = x :=
    takeWhile_app p x (b :: (t ++ s2)) hall (fun b2 h => by
      simp only [List.head?_cons, Option.some.injEq] at h
      rw [← h]; exact hb)
  unfold mseq mstar
  rw [htw, List.map_map]
  have hres := concat_map_range_single (x.length + 1) 0
      ((fun q => mlit (b :: t) q.1 q.2) ∘ fun i =>
        (List.drop (x.length + 1 - (i + 1)) (x ++ (b :: (t ++ s2))), c))
      (by omega)
      (fun i hi hne => by
        have harith : x.length + 1 - (i + 1) = x.length - i := by omega
        show mlit (b :: t) (List.drop (x.length + 1 - (i + 1)) (x ++ (b :: (t ++ s2)))) c = []
        rw [harith]
        obtain ⟨a, ha1, ha2⟩ := head_drop_mem x (b :: (t ++ s2)) (x.length - i) (by omega)
        exact mlit_not_head b t _ c (by
          rw [ha1]
          intro hEq
          exact class_ne (hall a ha2) hb (Option.some.inj hEq)))
  rw [hres]
  show mlit (b :: t) (List.drop (x.length + 1 - (0 + 1)) (x ++ (b :: (t ++ s2)))) c = _
  have harith2 : x.length + 1 - (0 + 1) = x.length := by omega
  rw [harith2, List.drop_left]
  exact mlit_pref (b :: t) s2 c

/-! ## Literal `String.data` equations and character-class facts -/

theorem dataColonSpace : (": " : String).data = [':', ' '] := rfl
theorem dataColonLt : (": <" : String).data = [':', ' ', '<'] := rfl
theorem dataGtSpace : ("> " : String).data = ['>', ' '] := rfl
theorem dataNl : ("\n" : String).data = ['\n'] := rfl
theorem dataSpaces4 : ("    " : String).data = [' ', ' ', ' ', ' '] := rfl
theorem dataLink : ("link/" : String).data = ['l', 'i', 'n', 'k', '/'] := rfl
theorem dataEther : ("ether" : String).data = ['e', 't', 'h', 'e', 'r'] := rfl
theorem dataInfini :
    ("infiniband" : String).data = ['i', 'n', 'f', 'i', 'n', 'i', 'b', 'a', 'n', 'd'] := rfl
theorem dataSpace1 : (" " : String).data = [' '] := rfl
theorem dataAltname :
    ("altname " : String).data = ['a', 'l', 't', 'n', 'a', 'm', 'e', ' '] := rfl
theorem dataInet : ("inet " : String).data = ['i', 'n', 'e', 't', ' '] := rfl
theorem dataSlash : ("/" : String).data = ['/'] := rfl
theorem dataInetIndent :
    ("    inet " : String).data = [' ', ' ', ' ', ' ', 'i', 'n', 'e', 't', ' '] := rfl

theorem isDotCh_of_ne {a : Char} (h : a ≠ '\n') : isDotCh a = true := by
  simp [isDotCh, h]

theorem dot_of_class {p : Char → Bool} (hn : p '\n' = false) {a : Char} (ha : p a = true) :
    isDotCh a = true := isDotCh_of_ne (class_ne ha hn)

theorem isSpaceCh_false_of_digit {d : Char} (h : isDigitCh d = true) : isSpaceCh d = false := by
  cases hs : isSpaceCh d
  · rfl
  · exfalso
    simp only [isSpaceCh, decide_eq_true_eq] at hs
    rcases hs with h1 | h1 | h1 | h1 | h1 | h1 <;> (subst h1; exact absurd h (by decide))

theorem data_ne_nil (s : String) (h : s ≠ "") : s.data ≠ [] := by
  intro hc
  apply h
  cases s with
  | mk d =>
    simp only at hc
    subst hc
    rfl

theorem head?_app_left {β : Type} (l r : List β) (h : l ≠ []) : (l ++ r).head? = l.head? := by
  cases l with
  | nil => exact absurd rfl h
  | cons a t => simp

theorem takeWhile_nil_of_head (p : Char → Bool) (s : List Char)
    (h : ∀ b, s.head? = some b → p b = false) : s.takeWhile p = [] := by
  cases s with
  | nil => rfl
  | cons b t => simp [List.takeWhile_cons, h b rfl]

theorem drop_app_add {β : Type} (u v : List β) (k : Nat) :
    (u ++ v).drop (u.length + k) = v.drop k := by
  induction u with
  | nil => simp
  | cons a u ih => simp [Nat.succ_add, ih]

theorem hasInfix_app_false (t u L : List Char) (h : hasInfix t L = false) :
    hasInfix (t ++ u) L = false := by
  induction L with
  | nil =>
    simp only [hasInfix] at h ⊢
    cases hp : (t ++ u).isPrefixOf []
    · rfl
    · exact absurd (pref_app_head t u [] hp) (by rw [h]; exact fun hc => Bool.noConfusion hc)
  | cons a s ih =>
    simp only [hasInfix, Bool.or_eq_false_iff] at h ⊢
    refine ⟨?_, ih h.2⟩
    cases hp : (t ++ u).isPrefixOf (a :: s)
    · rfl
    · exact absurd (pref_app_head t u (a :: s) hp)
        (by rw [h.1]; exact fun hc => Bool.noConfusion hc)

/-! ## Further matcher step lemmas -/

/-- A literal step. -/
theorem litStep {σ : Type} (t s2 input : List Char) (K : MP σ) (c : σ)
    (hinput : input = t ++ s2) : mseq (mlit t) K input c = K s2 c := by
  subst hinput
  exact mseq_single _ _ _ _ _ _ (mlit_pref t s2 c)

/-- The `(?:ether|infiniband)` alternation consumes exactly the rendered
link kind. -/
theorem etherStep {σ : Type} (K : MP σ) (inf : Bool) (s2 input : List Char) (c : σ)
    (hinput : input =
      (if inf then ['i', 'n', 'f', 'i', 'n', 'i', 'b', 'a', 'n', 'd']
       else ['e', 't', 'h', 'e', 'r']) ++ s2) :
    mseq (malt (mlit ['e', 't', 'h', 'e', 'r']) (mlit ['i', 'n', 'f', 'i', 'n', 'i', 'b', 'a', 'n', 'd']))
      K input c = K s2 c := by
  rw [mseq_malt]
  cases inf with
  | false =>
    have h1 : input = ['e', 't', 'h', 'e', 'r'] ++ s2 := by simpa using hinput
    rw [mseq_mlit_nil 'i' _ K input c (by
      rw [h1]
      simp only [List.cons_append, List.head?_cons, ne_eq, Option.some.injEq]
      decide)]
    rw [litStep _ s2 input K c h1]
    simp
  | true =>
    have h1 : input = ['i', 'n', 'f', 'i', 'n', 'i', 'b', 'a', 'n', 'd'] ++ s2 := by
      simpa using hinput
    rw [mseq_mlit_nil 'e' _ K input c (by
      rw [h1]
      simp only [List.cons_append, List.head?_cons, ne_eq, Option.some.injEq]
      decide)]
    rw [litStep _ s2 input K c h1]
    simp

/-- `\<.+\> `: the greedy dot run inside the header line backtracks to the
unique `>` of the flag set. -/
theorem dotGtStep {σ : Type} (flags hr2 s2 input : List Char) (K : MP σ) (c : σ)
    (hf1 : flags ≠ []) (hf2 : ∀ a ∈ flags, a ≠ '\n' ∧ a ≠ '>')
    (_hh1 : hr2 ≠ []) (hh2 : ∀ a ∈ hr2, a ≠ '\n' ∧ a ≠ '>')
    (hinput : input = flags ++ ('>' :: ' ' :: (hr2 ++ '\n' :: s2))) :
    mseq (mplus isDotCh) (mseq (mlit ('>' :: [' '])) K) input c
      = K (hr2 ++ '\n' :: s2) c := by
  subst hinput
  have hx : flags ++ ('>' :: ' ' :: (hr2 ++ '\n' :: s2))
      = (flags ++ '>' :: ' ' :: hr2) ++ '\n' :: s2 := by
    simp
  rw [hx]
  have hall : ∀ a ∈ flags ++ '>' :: ' ' :: hr2, isDotCh a = true := by
    intro a ha
    simp only [List.mem_append, List.mem_cons] at ha
    rcases ha with h | h | h | h
    · exact isDotCh_of_ne (hf2 a h).1
    · subst h; decide
    · subst h; decide
    · exact isDotCh_of_ne (hh2 a h).1
  have htw : ((flags ++ '>' :: ' ' :: hr2) ++ '\n' :: s2).takeWhile isDotCh
      = flags ++ '>' :: ' ' :: hr2 :=
    takeWhile_app _ _ _ hall (fun b2 h => by
      simp only [List.head?_cons, Option.some.injEq] at h
      rw [← h]; decide)
  have hflen : 0 < flags.length := List.length_pos.mpr hf1
  have hxlen : (flags ++ '>' :: ' ' :: hr2).length = flags.length + 2 + hr2.length := by
    simp
    omega
  rw [mseq_mplus_choose isDotCh _ (flags ++ '>' :: ' ' :: hr2) ('\n' :: s2) c flags.length htw
        (by omega) (by rw [hxlen]; omega)
        (fun j hj1 hj2 hjne => by
          apply mseq_mlit_nil
          rw [show (flags ++ '>' :: ' ' :: hr2) ++ '\n' :: s2
                = flags ++ ('>' :: ' ' :: (hr2 ++ '\n' :: s2)) by simp]
          rw [hxlen] at hj2
          rcases Nat.lt_or_ge j flags.length with hlt | hge
          · obtain ⟨a, ha1, ha2⟩ := head_drop_mem flags ('>' :: ' ' :: (hr2 ++ '\n' :: s2)) j hlt
            rw [ha1]
            intro hEq
            exact (hf2 a ha2).2 (Option.some.inj hEq)
          · rcases Nat.lt_or_ge j (flags.length + 2) with h2 | h2
            · have hj3 : j = flags.length + 1 := by omega
              subst hj3
              rw [drop_app_add flags _ 1]
              simp
            · have hk : j = (flags ++ ['>', ' ']).length + (j - flags.length - 2) := by
                simp
                omega
              rw [show flags ++ ('>' :: ' ' :: (hr2 ++ '\n' :: s2))
                    = (flags ++ ['>', ' ']) ++ (hr2 ++ '\n' :: s2) by simp]
              rw [hk, drop_app_add]
              rcases Nat.lt_or_ge (j - flags.length - 2) hr2.length with h3 | h3
              · obtain ⟨a, ha1, ha2⟩ := head_drop_mem hr2 ('\n' :: s2) _ h3
                rw [ha1]
                intro hEq
                exact (hh2 a ha2).2 (Option.some.inj hEq)
              · have h4 : j - flags.length - 2 = hr2.length := by omega
                rw [h4, List.drop_left]
                simp)]
  rw [show (flags ++ '>' :: ' ' :: hr2) ++ '\n' :: s2
        = flags ++ ('>' :: ' ' :: (hr2 ++ '\n' :: s2)) by simp]
  rw [List.drop_left]
  exact litStep ('>' :: [' ']) _ _ K c rfl

/-! ## The optional tail groups of the block pattern -/

theorem mseq_assocF {σ : Type} (a b k : MP σ) : mseq (mseq a b) k = mseq a (mseq b k) :=
  funext fun s => funext fun c => mseq_assoc a b k s c

/-- `altnameGroup` sequenced with a continuation, flattened into its two
alternatives. -/
theorem altGroup_eq (X : MP AddrCaps) (s : List Char) (c : AddrCaps) :
    mseq altnameGroup X s c =
      mseq (mplus isDotCh)
        (mseq (mlit ['\n'])
          (mseq (mplus isSpaceCh)
            (mseq (mlit ['a', 'l', 't', 'n', 'a', 'm', 'e', ' '])
              (mseq (mplus isWordCh) X)))) s c
      ++ mseq (mstar isDotCh)
          (mseq (mlit ['a', 'l', 't', 'n', 'a', 'm', 'e', ' '])
            (mseq (mplus isWordCh) X)) s c := by
  simp only [altnameGroup, dataNl, dataAltname, mseq_assocF]
  rw [mseq_malt]
  simp only [mseq_assocF]

theorem altGroupFail_empty (X : MP AddrCaps) (c : AddrCaps) :
    mseq altnameGroup X [] c = [] := by
  rw [altGroup_eq]
  rw [mseq_nil _ _ _ _ (mplus_empty isDotCh [] c rfl), List.nil_append]
  apply mseq_mstar_fail
  intro j hj
  simp only [List.takeWhile_nil, List.length_nil, Nat.le_zero] at hj
  subst hj
  simp only [List.drop_nil]
  exact mseq_mlit_nil 'a' _ _ [] c (by simp)

/-- The `\s+altname` part can never start at the indented `link/` line of
the following block. -/
theorem spAltFail_blocks (tail : List Char) (W : MP AddrCaps) (c2 : AddrCaps) :
    mseq (mplus isSpaceCh) (mseq (mlit ['a', 'l', 't', 'n', 'a', 'm', 'e', ' ']) W)
      (' ' :: ' ' :: ' ' :: ' ' :: 'l' :: tail) c2 = [] := by
  have hsp : isSpaceCh ' ' = true := by decide
  have hl : isSpaceCh 'l' = false := by decide
  apply mseq_mplus_fail
  intro j hj1 hj2
  have htw : ((' ' :: ' ' :: ' ' :: ' ' :: 'l' :: tail).takeWhile isSpaceCh)
      = [' ', ' ', ' ', ' '] := by
    simp [List.takeWhile_cons, hsp, hl]
  rw [htw] at hj2
  have hj4 : j ≤ 4 := by simpa using hj2
  apply mseq_mlit_nil
  interval_cases j <;> simp

/-- The `\s+altname` part can never start where the following block starts
(or at the end of the output). -/
theorem spAltFail_rest (r : List Char) (hr : RestShape r) (W : MP AddrCaps) (c2 : AddrCaps) :
    mseq (mplus isSpaceCh) (mseq (mlit ['a', 'l', 't', 'n', 'a', 'm', 'e', ' ']) W) r c2 = [] := by
  rcases hr with h | ⟨hd, tail, hEq, h1, ⟨d, hd1, hd2⟩, h3, h4⟩
  · subst h
    exact mseq_nil _ _ _ _ (mplus_empty _ _ _ rfl)
  · subst hEq
    apply mseq_nil
    apply mplus_empty
    apply takeWhile_nil_of_head
    intro b2 hb2
    rw [head?_app_left hd _ h1, hd1] at hb2
    have hbd : b2 = d := (Option.some.inj hb2).symm
    subst hbd
    exact isSpaceCh_false_of_digit hd2

/-- The whole `(?:.+\n\s+|.*)altname \w+` group fails on a line `L` free of
`altname`, provided `\s+altname` fails on what follows the line. -/
theorem altGroupFailGen (L r2 input : List Char) (X : MP AddrCaps) (c : AddrCaps)
    (h1 : L ≠ []) (h2 : ∀ a ∈ L, a ≠ '\n') (h3 : hasInfix ("altname".data) L = false)
    (hsp : ∀ (W : MP AddrCaps) (c2 : AddrCaps),
      mseq (mplus isSpaceCh) (mseq (mlit ['a', 'l', 't', 'n', 'a', 'm', 'e', ' ']) W) r2 c2 = [])
    (hinput : input = L ++ '\n' :: r2) :
    mseq altnameGroup X input c = [] := by
  subst hinput
  rw [altGroup_eq]
  have hA : mseq (mplus isDotCh)
      (mseq (mlit ['\n'])
        (mseq (mplus isSpaceCh)
          (mseq (mlit ['a', 'l', 't', 'n', 'a', 'm', 'e', ' '])
            (mseq (mplus isWordCh) X)))) (L ++ '\n' :: r2) c = [] := by
    refine Eq.trans (plusLitStep isDotCh L '\n' [] r2 _ _ c h1
      (fun a ha => isDotCh_of_ne (h2 a ha)) (by decide) rfl) ?_
    exact hsp (mseq (mplus isWordCh) X) c
  have hB : mseq (mstar isDotCh)
      (mseq (mlit ['a', 'l', 't', 'n', 'a', 'm', 'e', ' '])
        (mseq (mplus isWordCh) X)) (L ++ '\n' :: r2) c = [] := by
    apply mseq_mstar_fail
    intro j hj
    have htw : ((L ++ '\n' :: r2).takeWhile isDotCh) = L :=
      takeWhile_app _ _ _ (fun a ha => isDotCh_of_ne (h2 a ha)) (fun b2 hb2 => by
        simp only [List.head?_cons, Option.some.injEq] at hb2
        rw [← hb2]; decide)
    rw [htw] at hj
    apply mseq_nil
    apply mlit_not_pref
    have h32 : hasInfix (['a', 'l', 't', 'n', 'a', 'm', 'e', ' ']) L = false :=
      hasInfix_app_false ("altname".data) [' '] L h3
    exact no_occurrence _ L r2 j (by decide) h32 hj
  rw [hA, hB]
  rfl

/-- The optional `inet` group fails where the next block starts (or at the
end of the output). -/
theorem inetGroupFail (r : List Char) (c : AddrCaps) (hr : RestShape r) :
    inetGroup r c = [] := by
  unfold inetGroup
  rcases hr with h | ⟨hd, tail, hEq, h1, ⟨d, hd1, hd2⟩, h3, h4⟩
  · subst h
    exact mseq_nil _ _ _ _ (mplus_empty _ _ _ rfl)
  · subst hEq
    apply mseq_nil
    apply mplus_empty
    apply takeWhile_nil_of_head
    intro b2 hb2
    rw [head?_app_left hd _ h1, hd1] at hb2
    have hbd : b2 = d := (Option.some.inj hb2).symm
    subst hbd
    exact isSpaceCh_false_of_digit hd2

/-- The `inet` group consumes a well-formed `inet` line and captures the
address. -/
theorem inetGroupRun (ip ipr r input : List Char) (c : AddrCaps)
    (hip1 : ip ≠ []) (hip2 : ∀ a ∈ ip, isIpCh a = true) (hipr : ∀ a ∈ ipr, a ≠ '\n')
    (hinput : input = ' ' :: ' ' :: ' ' :: ' ' :: 'i' :: 'n' :: 'e' :: 't' :: ' '
      :: (ip ++ '/' :: (ipr ++ '\n' :: r))) :
    inetGroup input c = [(r, updIp c (String.mk ip))] := by
  subst hinput
  simp only [inetGroup, dataInet, dataSlash, dataNl]
  refine Eq.trans (plusLitStep isSpaceCh [' ', ' ', ' ', ' '] 'i' ['n', 'e', 't', ' '] _ _ _ _
    (by simp) (by decide) (by decide) rfl) ?_
  refine Eq.trans (plusCapLitStep isIpCh updIp ip '/' [] _ _ _ _ hip1 hip2 (by decide) rfl) ?_
  exact starLitEnd isDotCh ipr '\n' [] r _ _
    (fun a ha => isDotCh_of_ne (hipr a ha)) (by decide) rfl

/-- The tail of the block pattern (both optional groups) on a block without
an `inet` line: both groups are skipped. -/
theorem tailOptsNone (r : List Char) (c : AddrCaps) (hr : RestShape r) :
    mseq (mopt altnameGroup) (mopt inetGroup) r c = [(r, c)] := by
  rw [mseq_mopt]
  have h17 : mseq altnameGroup (mopt inetGroup) r c = [] := by
    rcases hr with h | ⟨hd, tail, hEq, h1, hd5, h3, h4⟩
    · subst h
      exact altGroupFail_empty _ _
    · subst hEq
      exact altGroupFailGen hd (' ' :: ' ' :: ' ' :: ' ' :: 'l' :: tail) _ _ _ h1 h3 h4
        (fun W c2 => spAltFail_blocks tail W c2) rfl
  rw [h17, List.nil_append]
  show inetGroup r c ++ [(r, c)] = [(r, c)]
  rw [inetGroupFail r c hr]
  rfl

/-- The tail of the block pattern on a block with an `inet` line: the
`altname` group is skipped, the `inet` group greedily captures the address
(with the skip alternative second). -/
theorem tailOptsInet (ip ipr r input : List Char) (c : AddrCaps)
    (hip1 : ip ≠ []) (hip2 : ∀ a ∈ ip, isIpCh a = true) (hipr : ∀ a ∈ ipr, a ≠ '\n')
    (hnalt : hasInfix ("altname".data)
      ([' ', ' ', ' ', ' ', 'i', 'n', 'e', 't', ' '] ++ (ip ++ '/' :: ipr)) = false)
    (hr : RestShape r)
    (hinput : input = ' ' :: ' ' :: ' ' :: ' ' :: 'i' :: 'n' :: 'e' :: 't' :: ' '
      :: (ip ++ '/' :: (ipr ++ '\n' :: r))) :
    mseq (mopt altnameGroup) (mopt inetGroup) input c
      = [(r, updIp c (String.mk ip)), (input, c)] := by
  rw [mseq_mopt]
  have hA : mseq altnameGroup (mopt inetGroup) input c = [] := by
    apply altGroupFailGen ([' ', ' ', ' ', ' ', 'i', 'n', 'e', 't', ' '] ++ (ip ++ '/' :: ipr))
      r input _ c
    · simp
    · intro a ha
      rcases List.mem_append.mp ha with h9 | hrest
      · fin_cases h9 <;> decide
      · rcases List.mem_append.mp hrest with hip | hcons
        · exact class_ne (hip2 a hip) (by decide)
        · rcases List.mem_cons.mp hcons with h | h
          · subst h; decide
          · exact hipr a h
    · exact hnalt
    · exact fun W c2 => spAltFail_rest r hr W c2
    · rw [hinput]
      simp
  rw [hA, List.nil_append]
  show inetGroup input c ++ [(input, c)] = _
  rw [inetGroupRun ip ipr r input c hip1 hip2 hipr hinput]
  rfl

/-! ## Well-formed blocks and the full block match -/

theorem forall_mem_append2 {β : Type} {p : β → Prop} {u v : List β}
    (hu : ∀ a ∈ u, p a) (hv : ∀ a ∈ v, p a) : ∀ a ∈ u ++ v, p a := by
  intro a ha
  rcases List.mem_append.mp ha with h | h
  · exact hu a h
  · exact hv a h

theorem headerLine_ne_nil (b : Block) (_h : b.idx ≠ "") : b.headerLine ≠ [] := by
  intro hc
  have hlen := congrArg List.length hc
  simp [Block.headerLine] at hlen

theorem headerLine_head_digit (b : Block) (h1 : b.idx ≠ "")
    (h2 : ∀ c ∈ b.idx.data, isDigitCh c = true) :
    ∃ d, b.headerLine.head? = some d ∧ isDigitCh d = true := by
  have hD : b.idx.data ≠ [] := data_ne_nil _ h1
  obtain ⟨d, u, hdu⟩ := List.exists_cons_of_ne_nil hD
  refine ⟨d, ?_, h2 d (by rw [hdu]; simp)⟩
  rw [show b.headerLine = b.idx.data ++ (": ".data ++ b.name.data ++ ": <".data
        ++ b.flags.data ++ "> ".data ++ b.headerRest.data) from by
      simp [Block.headerLine]]
  rw [head?_app_left _ _ hD, hdu]
  rfl

theorem headerLine_no_nl (b : Block) (hb : b.Wf) : ∀ a ∈ b.headerLine, a ≠ '\n' := by
  obtain ⟨hidx1, hidx2, hname1, hname2, hflags1, hflags2, hhr1, hhr2, hrest⟩ := hb
  unfold Block.headerLine
  refine forall_mem_append2 (forall_mem_append2 (forall_mem_append2 (forall_mem_append2
    (forall_mem_append2 (forall_mem_append2 ?_ ?_) ?_) ?_) ?_) ?_) ?_
  · exact fun a ha => class_ne (hidx2 a ha) (by decide)
  · intro a ha; fin_cases ha <;> decide
  · exact fun a ha => class_ne (hname2 a ha) (by decide)
  · intro a ha; fin_cases ha <;> decide
  · exact fun a ha => (hflags2 a ha).1
  · intro a ha; fin_cases ha <;> decide
  · exact fun a ha => (hhr2 a ha).1

theorem renderBlock_ne_nil (b : Block) (_h : b.idx ≠ "") : renderBlock b ≠ [] := by
  intro hc
  have hlen := congrArg List.length hc
  simp [renderBlock, Block.headerLine] at hlen

theorem restShape_cons (b : Block) (hb : b.Wf) (rest : List Char) :
    RestShape (renderBlock b ++ rest) := by
  have hWf := hb
  obtain ⟨hidx1, hidx2, hname1, hname2, hflags1, hflags2, hhr1, hhr2, hmac1, hmac2,
    hlr1, hlr2, hinet, halt1, halt2⟩ := hb
  right
  refine ⟨b.headerLine,
    'i' :: 'n' :: 'k' :: '/' ::
      ((if b.infiniband then ("infiniband" : String).data else ("ether" : String).data) ++
        (' ' :: (b.mac.data ++ (' ' :: (b.linkRest.data ++ ('\n' ::
          ((match b.inet with
            | none => []
            | some _ => b.inetBody ++ ['\n']) ++ rest))))))),
    ?_, headerLine_ne_nil b hidx1, headerLine_head_digit b hidx1 hidx2,
    headerLine_no_nl b hWf, halt1⟩
  simp only [renderBlock, dataNl, dataSpaces4, dataLink, dataSpace1,
    List.append_assoc, List.cons_append, List.nil_append]

theorem restShape_renderBlocks (bs : List Block) (h : ∀ b ∈ bs, b.Wf) :
    RestShape (renderBlocks bs) := by
  cases bs with
  | nil => exact Or.inl rfl
  | cons b bs2 =>
    show RestShape (renderBlock b ++ renderBlocks bs2)
    exact restShape_cons b (h b (by simp)) _

/-- The full list of matches of the block pattern at the start of a rendered
well-formed block: the preferred match consumes the whole block and captures
its name, mac and (when present) IPv4 address. -/
theorem matchBlockFull (b : Block) (hb : b.Wf) (r : List Char) (hr : RestShape r) :
    ipAddrShowRegexM (renderBlock b ++ r) ⟨none, none, none⟩ =
      (match b.inet with
       | some (ip, _) =>
         [(r, ⟨some b.name, some b.mac, some ip⟩),
          (b.inetBody ++ '\n' :: r, ⟨some b.name, some b.mac, none⟩)]
       | none => [(r, ⟨some b.name, some b.mac, none⟩)]) := by
  obtain ⟨hidx1, hidx2, hname1, hname2, hflags1, hflags2, hhr1, hhr2, hmac1, hmac2,
    hlr1, hlr2, hinet, halt1, halt2⟩ := hb
  have hidxD := data_ne_nil _ hidx1
  have hnameD := data_ne_nil _ hname1
  have hflagsD := data_ne_nil _ hflags1
  have hhrD := data_ne_nil _ hhr1
  have hmacD := data_ne_nil _ hmac1
  have hlrD := data_ne_nil _ hlr1
  simp only [ipAddrShowRegexM, renderBlock, Block.headerLine, dataColonSpace, dataColonLt,
    dataGtSpace, dataNl, dataSpaces4, dataLink, dataEther, dataInfini, dataSpace1,
    List.append_assoc, List.cons_append, List.nil_append]
  refine Eq.trans (plusLitStep isDigitCh b.idx.data ':' [' '] _ _ _ _
    hidxD hidx2 (by decide) rfl) ?_
  refine Eq.trans (plusCapLitStep isWordCh updName b.name.data ':' [' ', '<'] _ _ _ _
    hnameD hname2 (by decide) rfl) ?_
  refine Eq.trans (dotGtStep b.flags.data b.headerRest.data _ _ _ _
    hflagsD hflags2 hhrD hhr2 rfl) ?_
  refine Eq.trans (plusLitStep isDotCh b.headerRest.data '\n' [] _ _ _ _
    hhrD (fun a ha => isDotCh_of_ne (hhr2 a ha).1) (by decide) rfl) ?_
  refine Eq.trans (plusLitStep isSpaceCh [' ', ' ', ' ', ' '] 'l' ['i', 'n', 'k', '/'] _ _ _ _
    (by simp) (by decide) (by decide) rfl) ?_
  refine Eq.trans (etherStep _ b.infiniband _ _ _ rfl) ?_
  refine Eq.trans (litStep [' '] _ _ _ _ rfl) ?_
  refine Eq.trans (plusCapLitStep isMacCh updMac b.mac.data ' ' [] _ _ _ _
    hmacD hmac2 (by decide) rfl) ?_
  refine Eq.trans (plusLitStep isDotCh b.linkRest.data '\n' [] _ _ _ _
    hlrD (fun a ha => isDotCh_of_ne (hlr2 a ha)) (by decide) rfl) ?_
  rcases hbi : b.inet with _ | ⟨ip, ipr⟩
  · simp only [hbi, List.append_eq, List.nil_append]
    rw [tailOptsNone r _ hr]
    simp [updName, updMac]
  · have hm : (ip, ipr) ∈ b.inet := by simp [hbi]
    obtain ⟨hip1, hip2, hipr⟩ := hinet (ip, ipr) hm
    have hipD := data_ne_nil _ hip1
    simp only [hbi, Block.inetBody, dataInetIndent, dataSlash, List.append_eq,
      List.append_assoc, List.cons_append, List.nil_append]
    refine Eq.trans (tailOptsInet ip.data ipr.data r _ _ hipD hip2 hipr
      (by
        have h2 := halt2
        simp only [Block.inetBody, hbi, dataInetIndent, dataSlash,
          List.append_assoc, List.cons_append, List.nil_append] at h2 ⊢
        exact h2)
      hr rfl) ?_
    simp [updName, updMac, updIp]

/-- The preferred match at a block start. -/
theorem matchBlockHead (b : Block) (hb : b.Wf) (r : List Char) (hr : RestShape r) :
    (ipAddrShowRegexM (renderBlock b ++ r) ⟨none, none, none⟩).head?
      = some (r, capsOf b) := by
  rw [matchBlockFull b hb r hr]
  rcases hbi : b.inet with _ | ⟨ip, ipr⟩ <;> simp [capsOf, hbi]

/-- Scanning a rendered well-formed output collects exactly one capture
record per block, in listing order. -/
theorem reFinditer_blocks (bs : List Block) (h : ∀ b ∈ bs, b.Wf) (fuel : Nat)
    (hfuel : (renderBlocks bs).length < fuel) :
    reFinditer ipAddrShowRegexM ⟨none, none, none⟩ fuel (renderBlocks bs)
      = bs.map capsOf := by
  induction bs generalizing fuel with
  | nil =>
    cases fuel with
    | zero => simp at hfuel
    | succ f => simp [reFinditer, renderBlocks]
  | cons b bs2 ih =>
    cases fuel with
    | zero => simp at hfuel
    | succ f =>
      have hWf := h b (by simp)
      have hRest : RestShape (renderBlocks bs2) :=
        restShape_renderBlocks bs2 (fun x hx => h x (by simp [hx]))
      have hne : renderBlock b ≠ [] := renderBlock_ne_nil b hWf.1
      obtain ⟨a, u, hau⟩ := List.exists_cons_of_ne_nil hne
      have hlen1 : 0 < (renderBlock b).length := by rw [hau]; simp
      show reFinditer ipAddrShowRegexM ⟨none, none, none⟩ (f + 1)
        (renderBlock b ++ renderBlocks bs2) = _
      have hempty : (renderBlock b ++ renderBlocks bs2).isEmpty = false := by
        rw [hau]; rfl
      simp only [reFinditer, hempty, Bool.false_eq_true, if_false,
        matchBlockHead b hWf (renderBlocks bs2) hRest]
      have hfuel2 : (renderBlocks bs2).length < f := by
        have := hfuel
        rw [show renderBlocks (b :: bs2) = renderBlock b ++ renderBlocks bs2 from rfl,
          List.length_append] at this
        omega
      rw [ih (fun x hx => h x (by simp [hx])) f hfuel2]
      rfl

/-- The parsing pipeline of `get_info` on a rendered well-formed output. -/
theorem ipGetInfoParse_blocks (bs : List Block) (h : ∀ b ∈ bs, b.Wf) :
    ipGetInfoParse (String.mk (renderBlocks bs)) = bs.map Block.info := by
  show (reFinditer ipAddrShowRegexM ⟨none, none, none⟩
      ((renderBlocks bs).length + 1) (renderBlocks bs)).map _ = _
  rw [reFinditer_blocks bs h _ (by omega)]
  rw [List.map_map]
  apply List.map_congr_left
  intro b hbmem
  simp [capsOf, Block.info]

/-! ## Characterization of the write-side MAC pattern -/

theorem isPrefixOf_exists (t s : List Char) (h : t.isPrefixOf s = true) :
    ∃ u, s = t ++ u := by
  induction t generalizing s with
  | nil => exact ⟨s, rfl⟩
  | cons a t ih =>
    cases s with
    | nil => simp at h
    | cons b s =>
      simp only [List.isPrefixOf_cons₂, Bool.and_eq_true, beq_iff_eq] at h
      obtain ⟨u, hu⟩ := ih s h.2
      exact ⟨u, by rw [← h.1, hu]; rfl⟩

theorem hexPair_some (l r : List Char) (h : hexPair l = some r) :
    ∃ a b2, l = a :: b2 :: r ∧ isHexLowCh a = true ∧ isHexLowCh b2 = true := by
  match l with
  | [] => simp [hexPair] at h
  | [a] => simp [hexPair] at h
  | a :: b2 :: u =>
    simp only [hexPair] at h
    split at h
    case isTrue hab =>
      rw [Bool.and_eq_true] at hab
      exact ⟨a, b2, by rw [Option.some.inj h], hab.1, hab.2⟩
    case isFalse hab => exact absurd h (by simp)

theorem hexPair_intro (a b2 : Char) (r : List Char)
    (ha : isHexLowCh a = true) (hb : isHexLowCh b2 = true) :
    hexPair (a :: b2 :: r) = some r := by
  simp [hexPair, ha, hb]

theorem macPairs_succ (sep : List Char) (n : Nat) (r : List Char)
    (h : macPairs sep (n + 1) r = true) :
    ∃ a b2 u, r = sep ++ a :: b2 :: u ∧ isHexLowCh a = true ∧ isHexLowCh b2 = true ∧
      macPairs sep n u = true := by
  simp only [macPairs] at h
  split at h
  case isTrue hpre =>
    obtain ⟨r0, hr0⟩ := isPrefixOf_exists sep r hpre
    subst hr0
    rw [List.drop_left] at h
    cases hp : hexPair r0 with
    | none => rw [hp] at h; exact absurd h (by simp)
    | some r2 =>
      rw [hp] at h
      obtain ⟨a, b2, hr2, ha, hb⟩ := hexPair_some _ _ hp
      exact ⟨a, b2, r2, by rw [hr2], ha, hb, h⟩
  case isFalse hpre => exact absurd h (by simp)

theorem macPairs_intro (sep : List Char) (n : Nat) (a b2 : Char) (u : List Char)
    (ha : isHexLowCh a = true) (hb : isHexLowCh b2 = true)
    (h : macPairs sep n u = true) :
    macPairs sep (n + 1) (sep ++ a :: b2 :: u) = true := by
  simp only [macPairs, isPrefixOf_self_app, if_true, List.drop_left,
    hexPair_intro a b2 u ha hb]
  exact h

theorem macLineEnd_true_iff (r : List Char) : macLineEnd r = true ↔ LineEndT r := by
  cases r with
  | nil => simp [macLineEnd, LineEndT]
  | cons c u =>
    simp only [macLineEnd, decide_eq_true_eq, LineEndT]
    constructor
    · intro h
      exact Or.inr ⟨u, by rw [h]⟩
    · intro h
      rcases h with h | ⟨u2, hu2⟩
      · exact absurd h (by simp)
      · have := List.cons.inj hu2
        exact this.1

theorem hex_not_sep (c : Char) (hc : isHexLowCh c = true) : ¬(c = '-' ∨ c = ':') := by
  intro h
  rcases h with h | h <;> (subst h; exact absurd hc (by decide))

theorem macTryRest_sound (sep r2 : List Char) (h : macTryRest sep r2 = true) :
    ∃ a b2 u, r2 = a :: b2 :: u ∧ isHexLowCh a = true ∧ isHexLowCh b2 = true ∧
      macPairs sep 4 u = true := by
  unfold macTryRest at h
  cases hp : hexPair r2 with
  | none => rw [hp] at h; exact absurd h (by simp)
  | some r3 =>
    rw [hp] at h
    obtain ⟨a, b2, hr, ha, hb⟩ := hexPair_some _ _ hp
    exact ⟨a, b2, r3, hr, ha, hb, h⟩

/-- Soundness: an accepted string has the six-group shape with a uniform
separator among `""`, `":"`, `"-"`, anchored at a line end. -/
theorem macMatch_imp_spec (s : String) (h : macMatch s = true) : macSpecAmended s := by
  unfold macMatch at h
  cases hp : hexPair s.data with
  | none => rw [hp] at h; exact absurd h (by simp)
  | some r =>
    rw [hp] at h
    obtain ⟨a1, b1, hs1, ha1, hb1⟩ := hexPair_some _ _ hp
    cases r with
    | nil => exact absurd h (by decide)
    | cons c r2 =>
      have hif : (if c = '-' ∨ c = ':' then macTryRest [c] r2 || macTryRest [] (c :: r2)
          else macTryRest [] (c :: r2)) = true := h
      by_cases hc : c = '-' ∨ c = ':'
      · rw [if_pos hc] at hif
        have hbad : macTryRest [] (c :: r2) = false := by
          have hcf : isHexLowCh c = false := by
            rcases hc with h2 | h2 <;> (subst h2; decide)
          unfold macTryRest
          cases r2 with
          | nil => rfl
          | cons b2 u => simp [hexPair, hcf]
        rw [hbad, Bool.or_false] at hif
        obtain ⟨a2, b2, r3, hr2, ha2, hb2, hps⟩ := macTryRest_sound [c] r2 hif
        obtain ⟨a3, b3, u3, hr3, ha3, hb3, hp3⟩ := macPairs_succ [c] 3 r3 hps
        obtain ⟨a4, b4, u4, hu3, ha4, hb4, hp4⟩ := macPairs_succ [c] 2 u3 hp3
        obtain ⟨a5, b5, u5, hu4, ha5, hb5, hp5⟩ := macPairs_succ [c] 1 u4 hp4
        obtain ⟨a6, b6, u6, hu5, ha6, hb6, hp6⟩ := macPairs_succ [c] 0 u5 hp5
        refine ⟨[a1, b1], [a2, b2], [a3, b3], [a4, b4], [a5, b5], [a6, b6], [c], u6,
          ⟨a1, b1, rfl, ha1, hb1⟩, ⟨a2, b2, rfl, ha2, hb2⟩, ⟨a3, b3, rfl, ha3, hb3⟩,
          ⟨a4, b4, rfl, ha4, hb4⟩, ⟨a5, b5, rfl, ha5, hb5⟩, ⟨a6, b6, rfl, ha6, hb6⟩,
          ?_, (macLineEnd_true_iff u6).mp hp6, ?_⟩
        · rcases hc with h2 | h2 <;> simp [h2]
        · rw [hs1, hr2, hr3, hu3, hu4, hu5]
          simp
      · rw [if_neg hc] at hif
        obtain ⟨a2, b2, r3, hr2, ha2, hb2, hps⟩ := macTryRest_sound [] (c :: r2) hif
        obtain ⟨a3, b3, u3, hr3, ha3, hb3, hp3⟩ := macPairs_succ [] 3 r3 hps
        obtain ⟨a4, b4, u4, hu3, ha4, hb4, hp4⟩ := macPairs_succ [] 2 u3 hp3
        obtain ⟨a5, b5, u5, hu4, ha5, hb5, hp5⟩ := macPairs_succ [] 1 u4 hp4
        obtain ⟨a6, b6, u6, hu5, ha6, hb6, hp6⟩ := macPairs_succ [] 0 u5 hp5
        refine ⟨[a1, b1], [a2, b2], [a3, b3], [a4, b4], [a5, b5], [a6, b6], [], u6,
          ⟨a1, b1, rfl, ha1, hb1⟩, ⟨a2, b2, rfl, ha2, hb2⟩, ⟨a3, b3, rfl, ha3, hb3⟩,
          ⟨a4, b4, rfl, ha4, hb4⟩, ⟨a5, b5, rfl, ha5, hb5⟩, ⟨a6, b6, rfl, ha6, hb6⟩,
          by simp, (macLineEnd_true_iff u6).mp hp6, ?_⟩
        rw [hs1, hr2, hr3, hu3, hu4, hu5]
        simp

/-- Completeness: every string of the six-group shape is accepted. -/
theorem spec_imp_macMatch (s : String) (hs : macSpecAmended s) : macMatch s = true := by
  obtain ⟨p1, p2, p3, p4, p5, p6, sep, t, h1, h2, h3, h4, h5, h6, hsep, ht, heq⟩ := hs
  obtain ⟨a1, b1, e1, ha1, hb1⟩ := h1
  obtain ⟨a2, b2, e2, ha2, hb2⟩ := h2
  obtain ⟨a3, b3, e3, ha3, hb3⟩ := h3
  obtain ⟨a4, b4, e4, ha4, hb4⟩ := h4
  obtain ⟨a5, b5, e5, ha5, hb5⟩ := h5
  obtain ⟨a6, b6, e6, ha6, hb6⟩ := h6
  subst e1; subst e2; subst e3; subst e4; subst e5; subst e6
  have hLE : macLineEnd t = true := (macLineEnd_true_iff t).mpr ht
  have hsep3 : sep = [] ∨ sep = [':'] ∨ sep = ['-'] := by simpa using hsep
  unfold macMatch
  rcases hsep3 with hse | hse | hse <;> subst hse
  · rw [heq]
    simp only [List.nil_append, List.cons_append, List.append_nil]
    rw [hexPair_intro a1 b1 _ ha1 hb1]
    show (if a2 = '-' ∨ a2 = ':' then
        macTryRest [a2] (b2 :: a3 :: b3 :: a4 :: b4 :: a5 :: b5 :: a6 :: b6 :: t)
          || macTryRest [] (a2 :: b2 :: a3 :: b3 :: a4 :: b4 :: a5 :: b5 :: a6 :: b6 :: t)
      else macTryRest [] (a2 :: b2 :: a3 :: b3 :: a4 :: b4 :: a5 :: b5 :: a6 :: b6 :: t)) = true
    rw [if_neg (hex_not_sep a2 ha2)]
    unfold macTryRest
    rw [hexPair_intro a2 b2 _ ha2 hb2]
    exact macPairs_intro [] 3 a3 b3 _ ha3 hb3
      (macPairs_intro [] 2 a4 b4 _ ha4 hb4
        (macPairs_intro [] 1 a5 b5 _ ha5 hb5
          (macPairs_intro [] 0 a6 b6 _ ha6 hb6 hLE)))
  · rw [heq]
    simp only [List.nil_append, List.cons_append, List.append_nil]
    rw [hexPair_intro a1 b1 _ ha1 hb1]
    show (if ':' = '-' ∨ ':' = ':' then
        macTryRest [':'] (a2 :: b2 :: ':' :: a3 :: b3 :: ':' :: a4 :: b4 :: ':'
          :: a5 :: b5 :: ':' :: a6 :: b6 :: t)
          || macTryRest [] (':' :: a2 :: b2 :: ':' :: a3 :: b3 :: ':' :: a4 :: b4 :: ':'
            :: a5 :: b5 :: ':' :: a6 :: b6 :: t)
      else macTryRest [] (':' :: a2 :: b2 :: ':' :: a3 :: b3 :: ':' :: a4 :: b4 :: ':'
        :: a5 :: b5 :: ':' :: a6 :: b6 :: t)) = true
    rw [if_pos (Or.inr rfl)]
    have hleft : macTryRest [':'] (a2 :: b2 :: ':' :: a3 :: b3 :: ':' :: a4 :: b4 :: ':'
        :: a5 :: b5 :: ':' :: a6 :: b6 :: t) = true := by
      unfold macTryRest
      rw [hexPair_intro a2 b2 _ ha2 hb2]
      exact macPairs_intro [':'] 3 a3 b3 _ ha3 hb3
        (macPairs_intro [':'] 2 a4 b4 _ ha4 hb4
          (macPairs_intro [':'] 1 a5 b5 _ ha5 hb5
            (macPairs_intro [':'] 0 a6 b6 _ ha6 hb6 hLE)))
    rw [hleft]
    rfl
  · rw [heq]
    simp only [List.nil_append, List.cons_append, List.append_nil]
    rw [hexPair_intro a1 b1 _ ha1 hb1]
    show (if '-' = '-' ∨ '-' = ':' then
        macTryRest ['-'] (a2 :: b2 :: '-' :: a3 :: b3 :: '-' :: a4 :: b4 :: '-'
          :: a5 :: b5 :: '-' :: a6 :: b6 :: t)
          || macTryRest [] ('-' :: a2 :: b2 :: '-' :: a3 :: b3 :: '-' :: a4 :: b4 :: '-'
            :: a5 :: b5 :: '-' :: a6 :: b6 :: t)
      else macTryRest [] ('-' :: a2 :: b2 :: '-' :: a3 :: b3 :: '-' :: a4 :: b4 :: '-'
        :: a5 :: b5 :: '-' :: a6 :: b6 :: t)) = true
    rw [if_pos (Or.inl rfl)]
    have hleft : macTryRest ['-'] (a2 :: b2 :: '-' :: a3 :: b3 :: '-' :: a4 :: b4 :: '-'
        :: a5 :: b5 :: '-' :: a6 :: b6 :: t) = true := by
      unfold macTryRest
      rw [hexPair_intro a2 b2 _ ha2 hb2]
      exact macPairs_intro ['-'] 3 a3 b3 _ ha3 hb3
        (macPairs_intro ['-'] 2 a4 b4 _ ha4 hb4
          (macPairs_intro ['-'] 1 a5 b5 _ ha5 hb5
            (macPairs_intro ['-'] 0 a6 b6 _ ha6 hb6 hLE)))
    rw [hleft]
    rfl

/-! ## Supporting facts for the claim theorems -/

theorem string_ne_of_length {a b : String} (h : a.length ≠ b.length) : a ≠ b :=
  fun hc => h (by rw [hc])

theorem downCmd_ne_upCmd (nic : String) :
    ("ip link set " ++ nic ++ " down") ≠ ("ip link set " ++ nic ++ " up") := by
  apply string_ne_of_length
  have l0 : ("ip link set " : String).length = 12 := rfl
  have l1 : (" down" : String).length = 5 := rfl
  have l2 : (" up" : String).length = 3 := rfl
  simp [String.length_append, l0, l1, l2]

theorem setCmd_ne_upCmd (nic mac : String) :
    ("/sbin/ip link set " ++ nic ++ " address " ++ mac) ≠ ("ip link set " ++ nic ++ " up") := by
  apply string_ne_of_length
  have l0 : ("/sbin/ip link set " : String).length = 18 := rfl
  have l1 : (" address " : String).length = 9 := rfl
  have l2 : ("ip link set " : String).length = 12 := rfl
  have l3 : (" up" : String).length = 3 := rfl
  simp [String.length_append, l0, l1, l2, l3]
  omega

theorem cmd_down_eq (nic : String) :
    "ip link set " ++ nic ++ " " ++ "down" = "ip link set " ++ nic ++ " down" := by
  rw [String.append_assoc]; rfl

theorem cmd_up_eq (nic : String) :
    "ip link set " ++ nic ++ " " ++ "up" = "ip link set " ++ nic ++ " up" := by
  rw [String.append_assoc]; rfl

theorem mk_ne_empty (l : List Char) (h : l ≠ []) : String.mk l ≠ "" := by
  intro hc
  apply h
  have h2 := congrArg String.data hc
  simpa using h2

theorem pySplitGo_tokens (l : List Char) : ∀ (acc : List Char),
    (∀ c ∈ acc, isSpaceCh c = false) →
    ∀ t ∈ pySplitGo l acc, t ≠ "" ∧ ∀ c ∈ t.data, isSpaceCh c = false := by
  induction l with
  | nil =>
    intro acc hacc t ht
    by_cases hne : acc = []
    · simp [pySplitGo, hne] at ht
    · simp only [pySplitGo, if_neg hne, List.mem_singleton] at ht
      subst ht
      refine ⟨mk_ne_empty _ (by simpa using hne), ?_⟩
      intro c hc
      exact hacc c (by simpa using hc)
  | cons a l ih =>
    intro acc hacc t ht
    by_cases hsp : isSpaceCh a = true
    · by_cases hne : acc = []
      · simp only [pySplitGo, hsp, if_true, if_pos hne] at ht
        exact ih [] (by simp) t ht
      · simp only [pySplitGo, hsp, if_true, if_neg hne] at ht
        rcases List.mem_cons.mp ht with h | h
        · subst h
          refine ⟨mk_ne_empty _ (by simpa using hne), ?_⟩
          intro c hc
          exact hacc c (by simpa using hc)
        · exact ih [] (by simp) t h
    · have hsp2 : isSpaceCh a = false := by
        cases hx : isSpaceCh a
        · rfl
        · exact absurd hx hsp
      simp only [pySplitGo, hsp2, Bool.false_eq_true, if_false] at ht
      refine ih (a :: acc) ?_ t ht
      intro c hc
      rcases List.mem_cons.mp hc with h | h
      · subst h; exact hsp2
      · exact hacc c h

/-! ## The claims -/

/-- C1 (counterexample): as stated, the claim fails on the code.  First,
when the down command itself fails, the exception propagates before the
`try`/`finally` bracket is entered, so the up command is issued zero times
on that exit path.  Second, when both the set-address and the up command
fail, Python `finally` semantics replace the pending set-address failure
with the up failure, so the original set-address failure does not
propagate. -/
theorem set_mac_address_claim_cex :
    (("ip link set eth0 up")
        ∉ (set_mac_address (fun c => ⟨decide (c ≠ "ip link set eth0 down"), "", ""⟩)
            "eth0" "00:22:48:79:69:b4").1.cmds)
    ∧ ((set_mac_address (fun c => ⟨decide (c = "ip link set eth0 down"), "", ""⟩)
          "eth0" "00:22:48:79:69:b4").1.cmds.count "ip link set eth0 up" = 1)
    ∧ ((set_mac_address (fun c => ⟨decide (c = "ip link set eth0 down"), "", ""⟩)
          "eth0" "00:22:48:79:69:b4").2
        = Except.error (Err.cmdFail "Could not set eth0 to 'up'"))
    ∧ Err.cmdFail "Could not set eth0 to 'up'"
        ≠ Err.cmdFail "fail to set mac address 00:22:48:79:69:b4 for nic eth0" := by
  refine ⟨?_, ?_, ?_, ?_⟩ <;> decide

/-- C1 (amended): for a validated MAC, whenever the down command succeeds
the bring-up command is issued exactly once on every exit path of the
down/set/up bracket (whether or not set-address or up fail), and when the
set-address command fails while the up command succeeds, the original
set-address failure propagates to the caller. -/
theorem set_mac_address_bracket (runner : Runner) (nic mac : String)
    (hmac : macMatch mac = true)
    (hdown : (runner ("ip link set " ++ nic ++ " down")).exitOk = true) :
    (set_mac_address runner nic mac).1.cmds.count ("ip link set " ++ nic ++ " up") = 1
    ∧ ((runner ("/sbin/ip link set " ++ nic ++ " address " ++ mac)).exitOk = false →
       (runner ("ip link set " ++ nic ++ " up")).exitOk = true →
       (set_mac_address runner nic mac).2 = Except.error (Err.cmdFail
         ("fail to set mac address " ++ mac ++ " for nic " ++ nic))) := by
  have hD : ipDown runner nic false
      = (⟨["ip link set " ++ nic ++ " down"], []⟩, Except.ok ()) := by
    unfold ipDown set_device_status
    simp [cmd_down_eq, hdown]
  have hU1 : (ipUp runner nic false).1 = ⟨["ip link set " ++ nic ++ " up"], []⟩ := by
    unfold ipUp set_device_status
    simp only [cmd_up_eq]
    cases (runner ("ip link set " ++ nic ++ " up")).exitOk <;> simp
  constructor
  · unfold set_mac_address
    simp only [hmac, Bool.true_eq_false, if_false, hD]
    simp [Trace.append, hU1, List.count_cons, List.count_nil,
      downCmd_ne_upCmd nic, setCmd_ne_upCmd nic mac]
  · intro hset hup
    have hU : ipUp runner nic false
        = (⟨["ip link set " ++ nic ++ " up"], []⟩, Except.ok ()) := by
      unfold ipUp set_device_status
      simp [cmd_up_eq, hup]
    unfold set_mac_address
    simp [hmac, hD, hU, hset]

/-- C1 (witness): a runner that fails only the set-address command. -/
theorem set_mac_address_bracket_witness :
    (set_mac_address
        (fun c => ⟨decide (c ≠ "/sbin/ip link set eth0 address 00:22:48:79:69:b4"), "", ""⟩)
        "eth0" "00:22:48:79:69:b4").1.cmds.count ("ip link set eth0 up") = 1
    ∧ (set_mac_address
        (fun c => ⟨decide (c ≠ "/sbin/ip link set eth0 address 00:22:48:79:69:b4"), "", ""⟩)
        "eth0" "00:22:48:79:69:b4").2
      = Except.error (Err.cmdFail "fail to set mac address 00:22:48:79:69:b4 for nic eth0") := by
  have h := set_mac_address_bracket
    (fun c => ⟨decide (c ≠ "/sbin/ip link set eth0 address 00:22:48:79:69:b4"), "", ""⟩)
    "eth0" "00:22:48:79:69:b4" (by decide) (by decide)
  exact ⟨h.1, h.2 (by decide) (by decide)⟩

/-- C2: on every valid multi-line `addr show` output with N interface
blocks, `get_info` parsing returns exactly N records, in listing order,
each with a non-empty name and the mac equal to the link-layer token of its
block (the record list is exactly the blocks' field projections). -/
theorem get_info_blocks_spec (bs : List Block) (h : ∀ b ∈ bs, b.Wf) :
    get_info (fun _ => ⟨true, String.mk (renderBlocks bs), ""⟩) none
        = Except.ok (bs.map Block.info)
    ∧ ipGetInfoParse (String.mk (renderBlocks bs)) = bs.map Block.info
    ∧ (ipGetInfoParse (String.mk (renderBlocks bs))).length = bs.length
    ∧ ∀ rcd ∈ ipGetInfoParse (String.mk (renderBlocks bs)), rcd.nic_name ≠ "" := by
  have hp := ipGetInfoParse_blocks bs h
  refine ⟨?_, hp, by rw [hp]; simp, ?_⟩
  · unfold get_info
    simp [hp]
  · intro rcd hrcd
    rw [hp] at hrcd
    obtain ⟨b, hbmem, hbeq⟩ := List.mem_map.mp hrcd
    rw [← hbeq]
    simpa [Block.info] using (h b hbmem).2.2.1

/-- C2 (witness): a two-block rendered output. -/
theorem get_info_blocks_witness :
    (∀ b ∈ [blkEth1, blkEnP1], b.Wf)
    ∧ ipGetInfoParse (String.mk (renderBlocks [blkEth1, blkEnP1]))
        = [⟨"eth1", "00:22:48:79:69:b4", some "10.0.1.4"⟩,
           ⟨"enP1", "00:00:09:27:fe:80", none⟩] := by
  have hwf : ∀ b ∈ [blkEth1, blkEnP1], b.Wf := by decide
  exact ⟨hwf, ((get_info_blocks_spec [blkEth1, blkEnP1] hwf).2.1).trans (by rfl)⟩

/-- C3 (counterexample): on empty `ip route` output the operation fails
with the generic non-emptiness assertion, before the route pattern is
consulted — not with the "Could not locate default network interface"
`LisaException` the claim requires. -/
theorem get_default_route_empty_cex :
    get_default_route_info ⟨true, "", ""⟩
        = Except.error (Err.assertFail "Expected stdout to be non-empty")
    ∧ get_default_route_info ⟨true, "", ""⟩
        ≠ Except.error (Err.lisa "Could not locate default network interface in output:\n") := by
  exact ⟨rfl, by decide⟩

/-- C3 (amended): on the sample route line the device `eth0` is returned;
on empty output the generic non-emptiness assertion fails first; the
distinct "no default route" `LisaException` is raised exactly when the
output is non-empty but the route pattern finds no match. -/
theorem get_default_route_spec :
    get_default_route_info ⟨true,
        "default via 10.57.0.1 dev eth0 proto dhcp src 10.57.0.4 metric 100", ""⟩
      = Except.ok ("eth0", "default via 10.57.0.1 dev eth0")
    ∧ get_default_route_info ⟨true, "", ""⟩
      = Except.error (Err.assertFail "Expected stdout to be non-empty")
    ∧ (∀ r : RunResult, r.exitOk = true → r.stdout ≠ "" →
        reSearch devRegexM none (r.stdout.length + 1) r.stdout.data = none →
        get_default_route_info r = Except.error (Err.lisa
          ("Could not locate default network interface in output:\n" ++ r.stdout))) := by
  refine ⟨by rfl, rfl, ?_⟩
  intro r h1 h2 h3
  unfold get_default_route_info
  simp [h1, h2, h3]

/-- C3 (witness): non-empty output on which the route pattern finds no
match. -/
theorem get_default_route_spec_witness :
    get_default_route_info ⟨true, "xyz", ""⟩
      = Except.error
          (Err.lisa "Could not locate default network interface in output:\nxyz") := by
  have h := get_default_route_spec.2.2 ⟨true, "xyz", ""⟩ rfl (by decide) (by rfl)
  exact h.trans (by rfl)

/-- C4: for every string rejected by the MAC-validity pattern,
`set_mac_address` fails with the `LisaException` and issues no command at
all (and registers nothing for boot). -/
theorem set_mac_address_invalid_spec (runner : Runner) (nic mac : String)
    (h : macMatch mac = false) :
    set_mac_address runner nic mac
      = (⟨[], []⟩, Except.error (Err.lisa ("MAC address " ++ mac ++ " is invalid"))) := by
  unfold set_mac_address
  rw [if_pos h]

/-- C4 (witness): the malformed address `"00:11:22"`. -/
theorem set_mac_address_invalid_witness :
    macMatch "00:11:22" = false
    ∧ set_mac_address (fun _ => ⟨true, "", ""⟩) "eth0" "00:11:22"
        = (⟨[], []⟩, Except.error (Err.lisa "MAC address 00:11:22 is invalid")) := by
  refine ⟨by decide, ?_⟩
  rw [set_mac_address_invalid_spec (fun _ => ⟨true, "", ""⟩) "eth0" "00:11:22" (by decide)]
  rfl

/-- C5 (counterexample): the claim's characterization is wrong in both
directions.  `"001122334455"` (no separators at all) is accepted by the
code's pattern but is not six groups joined by `:` or `-`; and
`"AA-BB-CC-DD-EE-FF"` is six groups of hex digits joined uniformly by `-`
yet the code's pattern rejects it (the octet class is lowercase only). -/
theorem mac_pattern_claim_cex :
    macMatch "001122334455" = true
    ∧ ¬ macSpecClaim "001122334455"
    ∧ macMatch "AA-BB-CC-DD-EE-FF" = false
    ∧ macSpecClaim "AA-BB-CC-DD-EE-FF" := by
  refine ⟨by decide, ?_, by decide, ?_⟩
  · intro hs
    obtain ⟨p1, p2, p3, p4, p5, p6, sep, t, h1, h2, h3, h4, h5, h6, hsep, ht, heq⟩ := hs
    obtain ⟨a1, b1, e1, _, _⟩ := h1
    obtain ⟨a2, b2, e2, _, _⟩ := h2
    obtain ⟨a3, b3, e3, _, _⟩ := h3
    obtain ⟨a4, b4, e4, _, _⟩ := h4
    obtain ⟨a5, b5, e5, _, _⟩ := h5
    obtain ⟨a6, b6, e6, _, _⟩ := h6
    subst e1; subst e2; subst e3; subst e4; subst e5; subst e6
    have hsl : sep.length = 1 := by
      rcases (show sep = [':'] ∨ sep = ['-'] by simpa using hsep) with h | h <;> simp [h]
    have hlen := congrArg List.length heq
    have h12 : ("001122334455" : String).data.length = 12 := rfl
    rw [h12] at hlen
    simp [List.length_append, hsl] at hlen
    omega
  · exact ⟨['A', 'A'], ['B', 'B'], ['C', 'C'], ['D', 'D'], ['E', 'E'], ['F', 'F'], ['-'], [],
      ⟨'A', 'A', rfl, by decide, by decide⟩, ⟨'B', 'B', rfl, by decide, by decide⟩,
      ⟨'C', 'C', rfl, by decide, by decide⟩, ⟨'D', 'D', rfl, by decide, by decide⟩,
      ⟨'E', 'E', rfl, by decide, by decide⟩, ⟨'F', 'F', rfl, by decide, by decide⟩,
      by simp, Or.inl rfl, by decide⟩

/-- C5 (amended): a string is accepted by the write-side MAC-validity check
if and only if it is six groups of two lowercase hex digits joined
uniformly by `:`, uniformly by `-`, or directly concatenated with no
separator, anchored at a line end (end of string or a following newline). -/
theorem mac_pattern_amended_spec (s : String) : macMatch s = true ↔ macSpecAmended s :=
  ⟨macMatch_imp_spec s, spec_imp_macMatch s⟩

/-- C5 (amended, witness): the canonical colon-separated address satisfies
both sides. -/
theorem mac_pattern_amended_witness : macMatch "00:0d:3a:c5:13:6f" = true := by
  have h := (mac_pattern_amended_spec "00:0d:3a:c5:13:6f").mpr
  exact h ⟨['0', '0'], ['0', 'd'], ['3', 'a'], ['c', '5'], ['1', '3'], ['6', 'f'], [':'], [],
    ⟨'0', '0', rfl, by decide, by decide⟩, ⟨'0', 'd', rfl, by decide, by decide⟩,
    ⟨'3', 'a', rfl, by decide, by decide⟩, ⟨'c', '5', rfl, by decide, by decide⟩,
    ⟨'1', '3', rfl, by decide, by decide⟩, ⟨'6', 'f', rfl, by decide, by decide⟩,
    by simp, Or.inl rfl, by decide⟩

/-- C6: `set_mtu` writes and re-reads; when the read-back reports a value,
it fails with the "set mtu failed" verification assertion exactly when that
value differs from the requested one, and succeeds exactly when they are
equal. -/
theorem set_mtu_spec (runner : Runner) (readFile : String → String) (nic : String)
    (mtu v : Int) (hv : get_mtu readFile nic = some v) :
    ((set_mtu runner readFile nic mtu).2
        = Except.error (Err.assertFail "set mtu failed") ↔ v ≠ mtu)
    ∧ ((set_mtu runner readFile nic mtu).2 = Except.ok () ↔ v = mtu) := by
  unfold set_mtu
  rw [hv]
  by_cases hvm : v = mtu
  · simp [hvm]
  · simp [hvm]

/-- C6 (witness): requested 9000 against read-backs 1500 and 9000. -/
theorem set_mtu_spec_witness :
    get_mtu (fun _ => "1500") "eth0" = some 1500
    ∧ ((set_mtu (fun _ => ⟨true, "", ""⟩) (fun _ => "1500") "eth0" 9000).2
        = Except.error (Err.assertFail "set mtu failed") ↔ (1500 : Int) ≠ 9000)
    ∧ ((set_mtu (fun _ => ⟨true, "", ""⟩) (fun _ => "9000") "eth0" 9000).2
        = Except.ok () ↔ (9000 : Int) = 9000) :=
  ⟨by rfl,
   (set_mtu_spec (fun _ => ⟨true, "", ""⟩) (fun _ => "1500") "eth0" 9000 1500 (by rfl)).1,
   (set_mtu_spec (fun _ => ⟨true, "", ""⟩) (fun _ => "9000") "eth0" 9000 9000 (by rfl)).2⟩

/-- C7: a well-formed block without an `inet` line parses without error and
its record's IPv4 address is empty (`none`). -/
theorem get_info_no_inet_spec (bs : List Block) (h : ∀ b ∈ bs, b.Wf) (i : Nat)
    (hi : i < bs.length) (hnone : bs[i].inet = none) :
    (ipGetInfoParse (String.mk (renderBlocks bs)))[i]?
      = some ⟨bs[i].name, bs[i].mac, none⟩ := by
  rw [ipGetInfoParse_blocks bs h]
  rw [List.getElem?_map]
  rw [List.getElem?_eq_getElem hi]
  simp [Block.info, hnone]

/-- C7 (witness): the second block of the two-block output has no `inet`
line. -/
theorem get_info_no_inet_witness :
    [blkEth1, blkEnP1][1].inet = none
    ∧ (ipGetInfoParse (String.mk (renderBlocks [blkEth1, blkEnP1])))[1]?
        = some ⟨[blkEth1, blkEnP1][1].name, [blkEth1, blkEnP1][1].mac, none⟩ :=
  ⟨by decide, get_info_no_inet_spec [blkEth1, blkEnP1] (by decide) 1 (by decide) (by decide)⟩

/-- C8: when the existence probe reports that the interface exists,
`setup_bridge` issues only the probe — no creation, address-assignment or
bring-up command — and succeeds; in particular a second call with the same
name issues no creation command. -/
theorem setup_bridge_idempotent_spec (runner : Runner) (name ip : String)
    (h : nic_exists runner name = true) :
    setup_bridge runner name ip = (⟨["ip link show " ++ name], []⟩, Except.ok ())
    ∧ ("ip link add " ++ name ++ " type bridge") ∉ (setup_bridge runner name ip).1.cmds
    ∧ ("ip addr add " ++ ip ++ " dev " ++ name) ∉ (setup_bridge runner name ip).1.cmds
    ∧ ("ip link set " ++ name ++ " up") ∉ (setup_bridge runner name ip).1.cmds := by
  have hsb : setup_bridge runner name ip
      = (⟨["ip link show " ++ name], []⟩, Except.ok ()) := by
    unfold setup_bridge
    rw [if_pos h]
  refine ⟨hsb, ?_, ?_, ?_⟩ <;> rw [hsb] <;> intro hmem <;>
    simp only [List.mem_singleton] at hmem
  · have hlen := congrArg String.length hmem
    have l0 : ("ip link add " : String).length = 12 := rfl
    have l1 : (" type bridge" : String).length = 12 := rfl
    have l2 : ("ip link show " : String).length = 13 := rfl
    simp [String.length_append, l0, l1, l2] at hlen
    omega
  · have hlen := congrArg String.length hmem
    have l0 : ("ip addr add " : String).length = 12 := rfl
    have l1 : (" dev " : String).length = 5 := rfl
    have l2 : ("ip link show " : String).length = 13 := rfl
    simp [String.length_append, l0, l1, l2] at hlen
    omega
  · have hlen := congrArg String.length hmem
    have l0 : ("ip link set " : String).length = 12 := rfl
    have l1 : (" up" : String).length = 3 := rfl
    have l2 : ("ip link show " : String).length = 13 := rfl
    simp [String.length_append, l0, l1, l2] at hlen
    omega

/-- C8 (witness): a target whose `link show` output does not contain
"not exist". -/
theorem setup_bridge_idempotent_witness :
    nic_exists (fun _ => ⟨true, "5: br0: <BROADCAST> mtu 1500", ""⟩) "br0" = true
    ∧ setup_bridge (fun _ => ⟨true, "5: br0: <BROADCAST> mtu 1500", ""⟩) "br0" "10.0.0.1/24"
        = (⟨["ip link show br0"], []⟩, Except.ok ()) := by
  have h : nic_exists (fun _ => ⟨true, "5: br0: <BROADCAST> mtu 1500", ""⟩) "br0" = true := by
    decide
  exact ⟨h,
    ((setup_bridge_idempotent_spec (fun _ => ⟨true, "5: br0: <BROADCAST> mtu 1500", ""⟩)
      "br0" "10.0.0.1/24" h).1).trans (by rfl)⟩

/-- C9: the default (`ip`) variant of `get_interface_list` always fails
with the not-implemented error and issues no command; the FreeBSD
(`ifconfig`) variant returns the whitespace-delimited tokens of the
enumeration command's output, in order, each token non-empty and free of
whitespace. -/
theorem get_interface_list_spec :
    (∀ runner : Runner, Ip.get_interface_list runner = (⟨[], []⟩, Except.error Err.notImpl))
    ∧ (∀ runner : Runner, (runner "ifconfig -l").exitOk = true →
        IpFreebsd.get_interface_list runner
          = (⟨["ifconfig -l"], []⟩, Except.ok (pySplit (runner "ifconfig -l").stdout)))
    ∧ (∀ s : String, ∀ t ∈ pySplit s, t ≠ "" ∧ ∀ c ∈ t.data, isSpaceCh c = false) := by
  refine ⟨fun runner => rfl, fun runner h => ?_, fun s => pySplitGo_tokens s.data [] (by simp)⟩
  unfold IpFreebsd.get_interface_list
  simp [h]

/-- C9 (witness): the FreeBSD variant splits `" eth0  lo "` into its two
tokens. -/
theorem get_interface_list_witness :
    IpFreebsd.get_interface_list (fun _ => ⟨true, " eth0  lo ", ""⟩)
      = (⟨["ifconfig -l"], []⟩, Except.ok ["eth0", "lo"]) := by
  have h := get_interface_list_spec.2.1 (fun _ => ⟨true, " eth0  lo ", ""⟩) rfl
  exact h.trans (by rfl)

/-- C10: for `set_device_status` (up/down) and `add_ipv4_address`, when the
underlying command fails, the operation raises the command failure and
registers nothing with the boot-persistence collaborator — registration
happens only after the command succeeded. -/
theorem persist_after_success_spec (runner : Runner) (nic status ip : String) (persist : Bool)
    (h1 : (runner ("ip link set " ++ nic ++ " " ++ status)).exitOk = false)
    (h2 : (runner ("ip addr add " ++ ip ++ " dev " ++ nic)).exitOk = false) :
    (set_device_status runner nic status persist).1.boot = []
    ∧ (set_device_status runner nic status persist).2
        = Except.error (Err.cmdFail ("Could not set " ++ nic ++ " to '" ++ status ++ "'"))
    ∧ (add_ipv4_address runner nic ip persist).1.boot = []
    ∧ (add_ipv4_address runner nic ip persist).2
        = Except.error (Err.cmdFail ("Could not add address to device " ++ nic)) := by
  unfold set_device_status add_ipv4_address
  simp [h1, h2]

/-- C10 (witness): a runner failing every command. -/
theorem persist_after_success_witness :
    (set_device_status (fun _ => ⟨false, "", ""⟩) "eth0" "up" true).1.boot = []
    ∧ (add_ipv4_address (fun _ => ⟨false, "", ""⟩) "eth0" "10.0.0.5/24" true).1.boot = [] := by
  have h := persist_after_success_spec (fun _ => ⟨false, "", ""⟩) "eth0" "up" "10.0.0.5/24"
    true rfl rfl
  exact ⟨h.1, h.2.2.1⟩

end Lisa
